import Mathlib

/-!
# Verification of the ExpenseOwl tenant-scoped storage core

This file embeds, in Lean 4, the recurring-expense materialization engine,
the category reconciler, the validation/sanitization helpers and the
tenant-scoped CRUD surface of `internal/storage` (files `databaseStore.go`
and `storage.go`), and proves the stated correctness properties about them.

Conventions of the embedding:
* Go `time.Time` values are modelled by `GoTime`: a proleptic-Gregorian
  civil date (year, month, day, all `Int`) plus a seconds-within-day clock.
  A materialized `time.Time` always carries normalized civil fields; the
  predicate `ValidTime` captures that normal form.
* `time.AddDate` is only ever invoked by the source as `AddDate(0,0,1)`,
  `AddDate(0,0,7)`, `AddDate(0,1,0)` and `AddDate(1,0,0)`; those four
  specializations are modelled by `addDays 1`, `addDays 7`, `addMonth`
  and `addYear`, reproducing Go's normalization (month overflow rolls the
  year; day overflow spills into the following month).
* `time.Time` comparison (`Before`, SQL `timestamptz` `<`/`>`) compares
  absolute instants; `absTime` computes the instant (in seconds) of a
  `GoTime` and `timeBefore` compares instants.
* `uuid.New()` is modelled by an explicit counter (`seed`) threaded through
  the operations; `time.Now()` is an explicit `today` argument.
* Database tables are lists of rows; SQL `WHERE` clauses become list
  filters/finds, `UPDATE` becomes a guarded map, transactional rollback on
  an error path returns the pre-call state.
-/

/-- Go `isLeap` (src: Go standard library `time` package, used by
`AddDate` normalization): proleptic Gregorian leap-year rule. -/
def isLeap (y : Int) : Bool :=
  y % 4 == 0 && (y % 100 != 0 || y % 400 == 0)

/-- Number of days of month `m` (1..12) of year `y`. -/
def daysInMonth (y m : Int) : Int :=
  if m = 2 then (if isLeap y then 29 else 28)
  else if m = 4 ∨ m = 6 ∨ m = 9 ∨ m = 11 then 30
  else 31

/-- A Go `time.Time` wall value: civil date plus a seconds-within-day
clock. Day-level granularity plus a clock is all the source compares. -/
structure GoTime where
  year : Int
  month : Int
  day : Int
  clock : Int
  deriving DecidableEq, Repr

/-- Normal form of a materialized `time.Time`: month in 1..12, day within
the month, clock within the day. Every `time.Time` produced by parsing or
by `time.Now()` satisfies this, and the `AddDate` steps preserve it. -/
def ValidTime (t : GoTime) : Prop :=
  1 ≤ t.month ∧ t.month ≤ 12 ∧ 1 ≤ t.day ∧ t.day ≤ daysInMonth t.year t.month ∧
    0 ≤ t.clock ∧ t.clock < 86400

instance (t : GoTime) : Decidable (ValidTime t) := by
  unfold ValidTime; infer_instance

/-- Days from January 1 of year 1 to January 1 of year `y` (proleptic
Gregorian, floor division as in Go's `daysSinceEpoch`). -/
def daysFromYear (y : Int) : Int :=
  365 * (y - 1) + (y - 1) / 4 - (y - 1) / 100 + (y - 1) / 400

/-- Cumulative days before month `m` in year `y` (Go's `daysBefore` table
plus the leap-day adjustment for months past February). -/
def daysBeforeMonth (y m : Int) : Int :=
  (if m ≤ 1 then 0
   else if m ≤ 2 then 31
   else
    (if m ≤ 3 then 59 else if m ≤ 4 then 90 else if m ≤ 5 then 120
     else if m ≤ 6 then 151 else if m ≤ 7 then 181 else if m ≤ 8 then 212
     else if m ≤ 9 then 243 else if m ≤ 10 then 273 else if m ≤ 11 then 304
     else 334) + (if isLeap y then 1 else 0))

/-- Absolute day number of a civil date (days since January 1 of year 1). -/
def dateAbs (t : GoTime) : Int :=
  daysFromYear t.year + daysBeforeMonth t.year t.month + (t.day - 1)

/-- Absolute instant (in seconds) of a wall value; `time.Time` ordering is
ordering of absolute instants. -/
def absTime (t : GoTime) : Int :=
  86400 * dateAbs t + t.clock

/-- Go `t.Before(u)` / SQL `timestamptz` strict `<`. -/
def timeBefore (a b : GoTime) : Bool :=
  absTime a < absTime b

/-- The Go zero `time.Time` (January 1, year 1, 00:00:00 UTC);
`t.IsZero()` is equality with this value. -/
def goZeroTime : GoTime := ⟨1, 1, 1, 0⟩

/-- Model of `t.AddDate(0, 0, 1)` on a normalized date: advance one day,
rolling month and year as Go's `Date` normalization does. -/
def dayStep (t : GoTime) : GoTime :=
  if t.day < daysInMonth t.year t.month then { t with day := t.day + 1 }
  else if t.month < 12 then { t with month := t.month + 1, day := 1 }
  else { year := t.year + 1, month := 1, day := 1, clock := t.clock }

/-- Model of `t.AddDate(0, 0, n)` for `n ≥ 0`: `n` single-day advances. -/
def addDays (n : Nat) (t : GoTime) : GoTime :=
  dayStep^[n] t

/-- Model of `t.AddDate(0, 1, 0)`: bump the month (rolling the year), then
normalize day overflow as Go's `Date` does. For a normalized input the
day excess over the target month is at most 3, so a single spill into the
following month reproduces Go's normalization exactly
(e.g. Jan 31 + 1 month = Mar 3 in a non-leap year). -/
def addMonth (t : GoTime) : GoTime :=
  let y := if t.month < 12 then t.year else t.year + 1
  let m := if t.month < 12 then t.month + 1 else 1
  if t.day ≤ daysInMonth y m then
    { year := y, month := m, day := t.day, clock := t.clock }
  else if m < 12 then
    { year := y, month := m + 1, day := t.day - daysInMonth y m, clock := t.clock }
  else
    { year := y + 1, month := 1, day := t.day - daysInMonth y m, clock := t.clock }

/-- Model of `t.AddDate(1, 0, 0)`: bump the year, then normalize day
overflow (only Feb 29 of a leap year spills, to Mar 1). -/
def addYear (t : GoTime) : GoTime :=
  if t.day ≤ daysInMonth (t.year + 1) t.month then
    { t with year := t.year + 1 }
  else if t.month < 12 then
    { year := t.year + 1, month := t.month + 1,
      day := t.day - daysInMonth (t.year + 1) t.month, clock := t.clock }
  else
    { year := t.year + 2, month := 1,
      day := t.day - daysInMonth (t.year + 1) t.month, clock := t.clock }

/-- The interval `switch` of `generateExpensesFromRecurring`
(src/internal/storage/databaseStore.go): `daily` advances one day,
`weekly` seven days, `monthly` one calendar month, `yearly` one calendar
year; any other interval hits the `default` branch, which aborts
generation (modelled as `none`). -/
def stepInterval (interval : String) (t : GoTime) : Option GoTime :=
  if interval = "daily" then some (addDays 1 t)
  else if interval = "weekly" then some (addDays 7 t)
  else if interval = "monthly" then some (addMonth t)
  else if interval = "yearly" then some (addYear t)
  else none

/-- Total version of `stepInterval` for use under a valid-interval
hypothesis (under which it agrees with `stepInterval`). -/
def stepFn (interval : String) (t : GoTime) : GoTime :=
  (stepInterval interval t).getD t

/-! ## Sanitization and validation (src/internal/storage/storage.go) -/

/-- RE2 `\s`: the whitespace class of Go's regexp package,
`[\t\n\f\r ]`. Also used to model `strings.TrimSpace` (whose larger
Unicode space set agrees with this one on every character that can reach
the trim stage, since all other characters are replaced earlier). -/
def isSpaceChar (c : Char) : Bool :=
  c = ' ' ∨ c = '\t' ∨ c = '\n' ∨ c = '\r' ∨ c = '\x0c'

/-- The character class kept by `REInvalidChars`
(`[^\p{L}\p{N}\s.,\-'_!"]` — everything NOT in this class is replaced).
The Unicode letter/number classes `\p{L}`/`\p{N}` are modelled by
`Char.isAlpha`/`Char.isDigit`; the sanitizer theorems only depend on this
class containing the space character. -/
def isAllowedChar (c : Char) : Bool :=
  c.isAlpha ∨ c.isDigit ∨ isSpaceChar c ∨
    c = '.' ∨ c = ',' ∨ c = '-' ∨ c = '\'' ∨ c = '_' ∨ c = '!' ∨ c = '"'

/-- `REInvalidChars.ReplaceAllString(s, " ")`: replace every disallowed
character with a single space. -/
def replaceInvalid (l : List Char) : List Char :=
  l.map (fun c => if isAllowedChar c then c else ' ')

/-- `RERepeatingSpaces.ReplaceAllString(s, " ")`: collapse every maximal
run of whitespace into one `' '`. -/
def collapseSpaces : List Char → List Char
  | [] => []
  | [c] => [if isSpaceChar c then ' ' else c]
  | c1 :: c2 :: rest =>
    if isSpaceChar c1 && isSpaceChar c2 then collapseSpaces (c2 :: rest)
    else (if isSpaceChar c1 then ' ' else c1) :: collapseSpaces (c2 :: rest)

/-- `strings.TrimSpace`: drop whitespace from both ends. -/
def trimSpaces (l : List Char) : List Char :=
  ((l.dropWhile isSpaceChar).reverse.dropWhile isSpaceChar).reverse

/-- `SanitizeString` (src/internal/storage/storage.go): replace invalid
characters with whitespace, collapse repeated whitespace, trim the ends. -/
def SanitizeString (s : String) : String :=
  String.mk (trimSpaces (collapseSpaces (replaceInvalid s.data)))

/-- `SupportedCurrencies` (src/internal/storage/storage.go). -/
def SupportedCurrencies : List String := ["ars", "usd", "eur"]

/-- `defaultCategories` (src/internal/storage/storage.go). -/
def defaultCategories : List String :=
  ["Food", "Groceries", "Travel", "Rent", "Utilities", "Entertainment",
   "Healthcare", "Shopping", "Miscellaneous", "Income"]

/-- The `RecurringExpense` record (src/internal/storage/storage.go).
`Amount` is only ever copied, never computed with, so its numeric type is
modelled as `Int`. -/
structure RecurringExpense where
  userId : String
  flow : String
  id : String
  name : String
  amount : Int
  currency : String
  tags : List String
  category : String
  startDate : GoTime
  interval : String
  occurrences : Int
  deriving DecidableEq, Repr

/-- The `Expense` record (src/internal/storage/storage.go). -/
structure Expense where
  userId : String
  flow : String
  id : String
  recurringId : String
  name : String
  tags : List String
  category : String
  amount : Int
  currency : String
  source : String
  card : String
  date : GoTime
  deriving DecidableEq, Repr

/-- Tag cleanup shared by both `Validate` methods: sanitize each tag and
drop the ones that sanitize to blank. -/
def cleanTags (tags : List String) : List String :=
  (tags.map SanitizeString).filter (fun t => t ≠ "")

/-- `(*RecurringExpense).Validate` (src/internal/storage/storage.go,
lines 258-292). Go mutates the receiver (sanitized name/tags) and
returns an `error`; the model returns the mutated record or the error
message. The checks, in source order: blank name, empty category,
occurrences < 2, zero start date, invalid interval. Currency is NOT
examined. -/
def RecurringExpense.Validate (e : RecurringExpense) : Except String RecurringExpense :=
  let name := SanitizeString e.name
  if name = "" then .error "recurring expense name cannot be empty"
  else if e.category = "" then .error "recurring expense category cannot be empty"
  else
    let e' := { e with name := name, tags := if e.tags ≠ [] then cleanTags e.tags else e.tags }
    if e'.occurrences < 2 then .error "at least 2 occurences required to recur"
    else if e'.startDate = goZeroTime then .error "start date for recurring expense must be specified"
    else if e'.interval = "daily" ∨ e'.interval = "weekly" ∨ e'.interval = "monthly" ∨ e'.interval = "yearly" then .ok e'
    else .error "invalid interval"

/-! ## Recurring-expense generation (src/internal/storage/databaseStore.go,
`generateExpensesFromRecurring`, lines 945-1001) -/

/-- Model of `uuid.New().String()`: the `n`-th fresh identifier. -/
def genId (n : Nat) : String :=
  String.append "id-" (toString n)

/-- The emission loop of `generateExpensesFromRecurring`:
`for range limit` emits one instance per iteration (fresh id, the rule's
name/category/amount/currency/tags, `recurringId` = rule id, the current
date) and then advances the date by the interval; an invalid interval
returns the instances accumulated so far. -/
def genLoop (userId : String) (re : RecurringExpense) : Nat → Nat → GoTime → List Expense
  | _, 0, _ => []
  | seed, n + 1, cur =>
    { userId := userId, flow := "", id := genId seed, recurringId := re.id,
      name := re.name, tags := re.tags, category := re.category,
      amount := re.amount, currency := re.currency, source := "", card := "",
      date := cur } ::
      match stepInterval re.interval cur with
      | some next => genLoop userId re (seed + 1) n next
      | none => []

/-- Outcome of the `fromToday` fast-forward loop: it either exits normally
with the current date and remaining budget, or hits the invalid-interval
`default` branch (early `return expenses`, i.e. empty), or — for the
fuel-instrumented model only — runs out of fuel (shown unreachable for
valid inputs). -/
inductive FFResult where
  | finished (cur : GoTime) (budget : Int)
  | earlyReturn
  | outOfFuel
  deriving DecidableEq, Repr

/-- The `fromToday` fast-forward loop of `generateExpensesFromRecurring`:
`for currentDate.Before(today) && (occ == 0 || budget > 0)`, advancing the
date one interval step per iteration and decrementing the budget when
`occ > 0`. The loop is instrumented with fuel; `ffFuel` below always
suffices for normalized dates and valid intervals. -/
def ffLoop (interval : String) (occ : Int) (today : GoTime) :
    Nat → GoTime → Int → FFResult
  | 0, cur, budget =>
    if timeBefore cur today && (occ == 0 || 0 < budget) then .outOfFuel
    else .finished cur budget
  | fuel + 1, cur, budget =>
    if timeBefore cur today && (occ == 0 || 0 < budget) then
      match stepInterval interval cur with
      | some next => ffLoop interval occ today fuel next (if 0 < occ then budget - 1 else budget)
      | none => .earlyReturn
    else .finished cur budget

/-- Fuel bound for `ffLoop`: each iteration either decrements the budget
(`occ > 0`) or advances the date by at least one day (`occ = 0`). -/
def ffFuel (occ : Int) (today start : GoTime) : Nat :=
  occ.toNat + (absTime today - absTime start).toNat / 86400 + 1

/-- `generateExpensesFromRecurring` (src/internal/storage/databaseStore.go):
in `fromToday` mode first fast-forward from the start date consuming
budget, then emit the remaining budget (`for range limit`, which runs zero
times for a non-positive limit); in full mode emit `occurrences` instances
from the start date. -/
def generateExpensesFromRecurring (userId : String) (re : RecurringExpense)
    (fromToday : Bool) (today : GoTime) (seed : Nat) : List Expense :=
  if fromToday then
    match ffLoop re.interval re.occurrences today
        (ffFuel re.occurrences today re.startDate) re.startDate re.occurrences with
    | .finished cur budget => genLoop userId re seed budget.toNat cur
    | .earlyReturn => []
    | .outOfFuel => []
  else
    genLoop userId re seed re.occurrences.toNat re.startDate

/-! ## Database state model (tables of src/internal/storage/databaseStore.go) -/

/-- A row of the `categories` table: tenant id, name, 1-based position.
(The serial row id and created-at column are never read by the core.) -/
structure CatRow where
  userId : String
  name : String
  position : Int
  deriving DecidableEq, Repr

/-- A row of the `user_config` table. -/
structure ConfigRow where
  userId : String
  currency : String
  startDate : Int
  deriving DecidableEq, Repr

/-- The tenant-scoped tables of the store. -/
structure DB where
  expenses : List Expense
  recurring : List RecurringExpense
  categories : List CatRow
  userConfig : List ConfigRow
  deriving DecidableEq, Repr

/-- The rows of a database belonging to one tenant. -/
def restrict (uid : String) (db : DB) : DB :=
  { expenses := db.expenses.filter (fun e => e.userId == uid),
    recurring := db.recurring.filter (fun r => r.userId == uid),
    categories := db.categories.filter (fun c => c.userId == uid),
    userConfig := db.userConfig.filter (fun c => c.userId == uid) }

/-- An expense row as persisted by the `INSERT`/`COPY` column lists (which
carry `user_id` but no flow column). -/
def storeExpense (uid : String) (e : Expense) : Expense :=
  { e with userId := uid, flow := "" }

/-- An expense row as returned by `scanExpense` (the `SELECT` column list
omits `user_id`, so the Go struct's `UserID` stays empty). -/
def scanExpense (e : Expense) : Expense :=
  { e with userId := "" }

/-- A recurring-rule row as persisted (no flow column). -/
def storeRecurring (uid : String) (re : RecurringExpense) : RecurringExpense :=
  { re with userId := uid, flow := "" }

/-- A recurring-rule row as returned by `scanRecurringExpense` (the
`SELECT` omits `user_id`). -/
def scanRecurring (re : RecurringExpense) : RecurringExpense :=
  { re with userId := "" }

/-- `getOrCreateUserConfig`: read the tenant's config row, inserting the
base config (`usd`, start day 1) if absent. -/
def getOrCreateUserConfig (uid : String) (db : DB) : (String × Int) × DB :=
  match db.userConfig.find? (fun r => r.userId == uid) with
  | some r => ((r.currency, r.startDate), db)
  | none => (("usd", 1), { db with userConfig := db.userConfig ++ [⟨uid, "usd", 1⟩] })

/-- `GetCurrency`. -/
def GetCurrency (uid : String) (db : DB) : String × DB :=
  let (cs, db') := getOrCreateUserConfig uid db
  (cs.1, db')

/-- `GetStartDate`. -/
def GetStartDate (uid : String) (db : DB) : Int × DB :=
  let (cs, db') := getOrCreateUserConfig uid db
  (cs.2, db')

/-- `UpdateCurrency`: validate against `SupportedCurrencies`, then upsert
the config row keyed on `user_id`, updating only the currency. -/
def UpdateCurrency (uid currency : String) (db : DB) : Except String Unit × DB :=
  if !(SupportedCurrencies.contains currency) then
    (.error (String.append "invalid currency: " currency), db)
  else
    let ((_, sd), db1) := getOrCreateUserConfig uid db
    if db1.userConfig.any (fun r => r.userId == uid) then
      let rows := db1.userConfig.map fun r =>
        if r.userId == uid then { r with currency := currency } else r
      (.ok (), { db1 with userConfig := rows })
    else
      (.ok (), { db1 with userConfig := db1.userConfig ++ [⟨uid, currency, sd⟩] })

/-- `UpdateStartDate`: validate the 1..31 range, then upsert the config
row, updating only the start date. -/
def UpdateStartDate (uid : String) (startDate : Int) (db : DB) : Except String Unit × DB :=
  if startDate < 1 ∨ startDate > 31 then
    (.error "invalid start date", db)
  else
    let ((cur, _), db1) := getOrCreateUserConfig uid db
    if db1.userConfig.any (fun r => r.userId == uid) then
      let rows := db1.userConfig.map fun r =>
        if r.userId == uid then { r with startDate := startDate } else r
      (.ok (), { db1 with userConfig := rows })
    else
      (.ok (), { db1 with userConfig := db1.userConfig ++ [⟨uid, cur, startDate⟩] })

/-! ## Category operations (src/internal/storage/databaseStore.go) -/

/-- `strings.TrimSpace` on a `String`. -/
def goTrimSpace (s : String) : String :=
  String.mk (trimSpaces s.data)

/-- One `INSERT ... ON CONFLICT (user_id, name) DO UPDATE SET position`
statement: update the position of the `(user_id, name)` row if present,
insert the row otherwise. -/
def upsertCategory (uid : String) (rows : List CatRow) (name : String) (pos : Int) : List CatRow :=
  if rows.any (fun r => r.userId == uid && r.name == name) then
    rows.map fun r =>
      if r.userId == uid && r.name == name then { r with position := pos } else r
  else rows ++ [⟨uid, name, pos⟩]

/-- The upsert loop `for i, name := range categories`, storing position
`i + 1` for the name at 0-based index `i`. -/
def upsertCategories (uid : String) (rows : List CatRow) : List (Nat × String) → List CatRow
  | [] => rows
  | (i, name) :: rest => upsertCategories uid (upsertCategory uid rows name ((i : Int) + 1)) rest

/-- `DELETE FROM categories WHERE user_id = $1 AND NOT (name = ANY($2))`. -/
def deleteAbsentCategories (uid : String) (names : List String) (rows : List CatRow) : List CatRow :=
  rows.filter fun r => !(r.userId == uid && !(names.contains r.name))

/-- `updateCategoriesTable` (src/internal/storage/databaseStore.go, lines
496-549): reject an empty list or any name that is blank after trimming,
then — in one transaction — upsert every name with its 1-based position
and delete the tenant's rows whose names are absent from the list. -/
def updateCategoriesTable (uid : String) (categories : List String) (db : DB) :
    Except String Unit × DB :=
  if categories = [] then (.error "categories cannot be empty", db)
  else if categories.any (fun c => goTrimSpace c == "") then
    (.error "category names cannot be empty", db)
  else
    let rows := deleteAbsentCategories uid categories
      (upsertCategories uid db.categories categories.enum)
    (.ok (), { db with categories := rows })

/-- `UpdateCategories` (the `Storage` interface method). -/
def UpdateCategories (uid : String) (categories : List String) (db : DB) :
    Except String Unit × DB :=
  updateCategoriesTable uid categories db

/-- `getCategoriesFromTable`: the tenant's category names ordered by
position. -/
def getCategoriesFromTable (uid : String) (db : DB) : List String :=
  (((db.categories.filter (fun r => r.userId == uid)).mergeSort
      (fun a b => a.position ≤ b.position)).map (fun r => r.name))

/-- `seedCategories`: upsert a seed list (used for the default set); no
deletion of other rows. -/
def seedCategories (uid : String) (categories : List String) (db : DB) : DB :=
  { db with categories := upsertCategories uid db.categories categories.enum }

/-- `GetCategories`: read the tenant's names; when there are none, seed
and return the default set. -/
def GetCategories (uid : String) (db : DB) : List String × DB :=
  let cats := getCategoriesFromTable uid db
  if cats = [] then (defaultCategories, seedCategories uid defaultCategories db)
  else (cats, db)

/-! ## Expense operations (src/internal/storage/databaseStore.go) -/

/-- `GetAllExpenses`: the tenant's expenses, date descending. -/
def GetAllExpenses (uid : String) (db : DB) : List Expense :=
  ((db.expenses.filter (fun e => e.userId == uid)).mergeSort
    (fun a b => absTime b.date ≤ absTime a.date)).map scanExpense

/-- `GetExpense`: `WHERE user_id = $1 AND id = $2`. -/
def GetExpense (uid id : String) (db : DB) : Except String Expense :=
  match db.expenses.find? (fun e => e.userId == uid && e.id == id) with
  | some e => .ok (scanExpense e)
  | none => .error (String.append (String.append "expense with ID " id) " not found")

/-- `AddExpense`: default the id, the currency (from the tenant's config)
and the date (to now), then insert. -/
def AddExpense (uid : String) (expense : Expense) (today : GoTime) (seed : Nat) (db : DB) : DB :=
  let e1 := if expense.id = "" then { expense with id := genId seed } else expense
  let cdb := if e1.currency = "" then
      let (c, db') := GetCurrency uid db
      ({ e1 with currency := c }, db')
    else (e1, db)
  let e3 := if cdb.1.date = goZeroTime then { cdb.1 with date := today } else cdb.1
  { cdb.2 with expenses := cdb.2.expenses ++ [storeExpense uid e3] }

/-- `UpdateExpense`: default the currency, update the row scoped to
`(user_id, id)`; zero rows affected is the not-found error. -/
def UpdateExpense (uid id : String) (expense : Expense) (db : DB) :
    Except String Unit × DB :=
  let cdb := if expense.currency = "" then
      let (c, db') := GetCurrency uid db
      ({ expense with currency := c }, db')
    else (expense, db)
  let e := cdb.1
  let db1 := cdb.2
  if db1.expenses.countP (fun r => r.userId == uid && r.id == id) = 0 then
    (.error (String.append (String.append "expense with ID " id) " not found"), db1)
  else
    let rows := db1.expenses.map fun r =>
      if r.userId == uid && r.id == id then
        { r with name := e.name, category := e.category, amount := e.amount,
                 currency := e.currency, date := e.date, tags := e.tags,
                 recurringId := e.recurringId, source := e.source, card := e.card }
      else r
    (.ok (), { db1 with expenses := rows })

/-- `RemoveExpense`: delete scoped to `(user_id, id)`; zero rows affected
is the not-found error. -/
def RemoveExpense (uid id : String) (db : DB) : Except String Unit × DB :=
  if db.expenses.countP (fun r => r.userId == uid && r.id == id) = 0 then
    (.error (String.append (String.append "expense with ID " id) " not found"), db)
  else
    let rows := db.expenses.filter fun r => !(r.userId == uid && r.id == id)
    (.ok (), { db with expenses := rows })

/-- `AddMultipleExpenses`: `AddExpense` per element. -/
def AddMultipleExpenses (uid : String) (expenses : List Expense) (today : GoTime)
    (seed : Nat) (db : DB) : DB :=
  match expenses with
  | [] => db
  | e :: rest => AddMultipleExpenses uid rest today (seed + 1) (AddExpense uid e today seed db)

/-- `RemoveMultipleExpenses`: `DELETE ... WHERE user_id = $1 AND id = ANY($2)`. -/
def RemoveMultipleExpenses (uid : String) (ids : List String) (db : DB) : DB :=
  if ids = [] then db
  else
    let rows := db.expenses.filter fun r => !(r.userId == uid && ids.contains r.id)
    { db with expenses := rows }

/-! ## Recurring-rule operations (src/internal/storage/databaseStore.go) -/

/-- `GetRecurringExpenses`: all rules of the tenant. -/
def GetRecurringExpenses (uid : String) (db : DB) : List RecurringExpense :=
  (db.recurring.filter (fun r => r.userId == uid)).map scanRecurring

/-- `GetRecurringExpense`: one rule scoped to `(user_id, id)`. -/
def GetRecurringExpense (uid id : String) (db : DB) : Except String RecurringExpense :=
  match db.recurring.find? (fun r => r.userId == uid && r.id == id) with
  | some r => .ok (scanRecurring r)
  | none => .error (String.append (String.append "recurring expense with ID " id) " not found")

/-- Fill an empty currency from the tenant's config (the lookup may create
the tenant's config row as a side effect). -/
def currencyDefault (uid : String) (re : RecurringExpense) (db : DB) :
    RecurringExpense × DB :=
  if re.currency = "" then
    let (c, db') := GetCurrency uid db
    ({ re with currency := c }, db')
  else (re, db)

/-- The defaulting prelude of `AddRecurringExpense`: assign a fresh id when
empty, then fill an empty currency. -/
def defaultedRule (uid : String) (re : RecurringExpense) (seed : Nat) (db : DB) :
    RecurringExpense × DB :=
  currencyDefault uid (if re.id = "" then { re with id := genId seed } else re) db

/-- `AddRecurringExpense` (src/internal/storage/databaseStore.go, lines
810-854): inside one transaction, insert the rule row and bulk-insert the
instances produced by `generateExpensesFromRecurring` in full mode. -/
def AddRecurringExpense (uid : String) (re : RecurringExpense) (today : GoTime)
    (seed : Nat) (db : DB) : DB :=
  let rdb := defaultedRule uid re seed db
  let gen := generateExpensesFromRecurring uid rdb.1 false today (seed + 1)
  { rdb.2 with recurring := rdb.2.recurring ++ [storeRecurring uid rdb.1],
               expenses := rdb.2.expenses ++ gen }

/-- `UpdateRecurringExpense` (src/internal/storage/databaseStore.go, lines
856-914): force the path id onto the spec, default the currency, update
the rule row scoped to `(user_id, id)` (zero rows affected is the
not-found error and rolls the transaction back), delete this rule's
instances — all of them when `updateAll`, else only those dated strictly
after now — and bulk-insert the regenerated instances (`Full` mode when
`updateAll`, `FutureOnly` otherwise). The config row possibly created by
the currency lookup persists even on the error path, as it is written
outside the transaction. -/
def UpdateRecurringExpense (uid id : String) (re : RecurringExpense) (updateAll : Bool)
    (today : GoTime) (seed : Nat) (db : DB) : Except String Unit × DB :=
  let rdb := currencyDefault uid { re with id := id } db
  let re' := rdb.1
  let db1 := rdb.2
  if db1.recurring.countP (fun r => r.userId == uid && r.id == id) = 0 then
    (.error (String.append (String.append "recurring expense with ID " id)
      " not found to update"), db1)
  else
    let recs := db1.recurring.map fun r =>
      if r.userId == uid && r.id == id then
        { r with name := re'.name, amount := re'.amount, category := re'.category,
                 startDate := re'.startDate, interval := re'.interval,
                 occurrences := re'.occurrences, tags := re'.tags,
                 currency := re'.currency }
      else r
    let kept := db1.expenses.filter fun e =>
      !(e.userId == uid && e.recurringId == id && (updateAll || timeBefore today e.date))
    let gen := generateExpensesFromRecurring uid re' (!updateAll) today seed
    (.ok (), { db1 with recurring := recs, expenses := kept ++ gen })

/-- `RemoveRecurringExpense` (src/internal/storage/databaseStore.go, lines
916-943): inside one transaction, delete the rule row scoped to
`(user_id, id)` — zero rows affected is the not-found error and rolls
back — then delete the rule's instances: all of them when `removeAll`,
else only those dated strictly after now. -/
def RemoveRecurringExpense (uid id : String) (removeAll : Bool) (today : GoTime)
    (db : DB) : Except String Unit × DB :=
  if db.recurring.countP (fun r => r.userId == uid && r.id == id) = 0 then
    (.error (String.append (String.append "recurring expense with ID " id)
      " not found"), db)
  else
    let recs := db.recurring.filter fun r => !(r.userId == uid && r.id == id)
    let exps := db.expenses.filter fun e =>
      !(e.userId == uid && e.recurringId == id && (removeAll || timeBefore today e.date))
    (.ok (), { db with recurring := recs, expenses := exps })

/-! ## The exposed operation surface (for the tenant-isolation theorem) -/

/-- The `Config` payload assembled by `GetConfig`. -/
structure ConfigPayload where
  categories : List String
  currency : String
  startDate : Int
  recurringExpenses : List RecurringExpense
  deriving DecidableEq, Repr

/-- `GetConfig`: tenant config row (created if absent), categories
(seeded if absent) and recurring rules. -/
def GetConfig (uid : String) (db : DB) : ConfigPayload × DB :=
  let (cs, db1) := getOrCreateUserConfig uid db
  let (cats, db2) := GetCategories uid db1
  (⟨cats, cs.1, cs.2, GetRecurringExpenses uid db2⟩, db2)

/-- Every exposed tenant-scoped operation of the `Storage` interface
(expenses, recurring rules, categories, per-tenant config), with its
arguments. -/
inductive Op where
  | getConfig
  | getCategories
  | updateCategories (categories : List String)
  | getCurrency
  | updateCurrency (currency : String)
  | getStartDate
  | updateStartDate (startDate : Int)
  | getRecurringExpenses
  | getRecurringExpense (id : String)
  | addRecurringExpense (re : RecurringExpense)
  | removeRecurringExpense (id : String) (removeAll : Bool)
  | updateRecurringExpense (id : String) (re : RecurringExpense) (updateAll : Bool)
  | getAllExpenses
  | getExpense (id : String)
  | addExpense (e : Expense)
  | removeExpense (id : String)
  | addMultipleExpenses (es : List Expense)
  | removeMultipleExpenses (ids : List String)
  | updateExpense (id : String) (e : Expense)
  deriving DecidableEq, Repr

/-- Result values across the operation surface. -/
inductive OpResult where
  | ok
  | fail (msg : String)
  | expense (e : Expense)
  | expenses (l : List Expense)
  | recurring (r : RecurringExpense)
  | recurrings (l : List RecurringExpense)
  | names (l : List String)
  | str (s : String)
  | int (n : Int)
  | config (c : ConfigPayload)
  deriving DecidableEq, Repr

/-- Collapse an `Except`-with-unit into an `OpResult`. -/
def unitResult : Except String Unit → OpResult
  | .ok _ => .ok
  | .error m => .fail m

/-- Run one exposed operation for tenant `uid`: the pair of its visible
result and the successor database state. -/
def runOp (op : Op) (uid : String) (today : GoTime) (seed : Nat) (db : DB) :
    OpResult × DB :=
  match op with
  | .getConfig => let (c, db') := GetConfig uid db; (.config c, db')
  | .getCategories => let (l, db') := GetCategories uid db; (.names l, db')
  | .updateCategories cats => let (r, db') := UpdateCategories uid cats db; (unitResult r, db')
  | .getCurrency => let (c, db') := GetCurrency uid db; (.str c, db')
  | .updateCurrency c => let (r, db') := UpdateCurrency uid c db; (unitResult r, db')
  | .getStartDate => let (n, db') := GetStartDate uid db; (.int n, db')
  | .updateStartDate n => let (r, db') := UpdateStartDate uid n db; (unitResult r, db')
  | .getRecurringExpenses => (.recurrings (GetRecurringExpenses uid db), db)
  | .getRecurringExpense id =>
    match GetRecurringExpense uid id db with
    | .ok r => (.recurring r, db)
    | .error m => (.fail m, db)
  | .addRecurringExpense re => (.ok, AddRecurringExpense uid re today seed db)
  | .removeRecurringExpense id removeAll =>
    let (r, db') := RemoveRecurringExpense uid id removeAll today db
    (unitResult r, db')
  | .updateRecurringExpense id re updateAll =>
    let (r, db') := UpdateRecurringExpense uid id re updateAll today seed db
    (unitResult r, db')
  | .getAllExpenses => (.expenses (GetAllExpenses uid db), db)
  | .getExpense id =>
    match GetExpense uid id db with
    | .ok e => (.expense e, db)
    | .error m => (.fail m, db)
  | .addExpense e => (.ok, AddExpense uid e today seed db)
  | .removeExpense id => let (r, db') := RemoveExpense uid id db; (unitResult r, db')
  | .addMultipleExpenses es => (.ok, AddMultipleExpenses uid es today seed db)
  | .removeMultipleExpenses ids => (.ok, RemoveMultipleExpenses uid ids db)
  | .updateExpense id e => let (r, db') := UpdateExpense uid id e db; (unitResult r, db')

/-- Stored position that the category upsert loop leaves for name `n`:
the 1-based index of the last occurrence of `n` in the enumerated list
(0 when `n` is absent). -/
def lastPos : List (Nat × String) → String → Int
  | [], _ => 0
  | (i, m) :: rest, n =>
    if (rest.map Prod.snd).contains n then lastPos rest n
    else if m = n then (i : Int) + 1
    else 0

/-- Frame and two-run noninterference of a tenant-indexed state
transformer: a call for tenant A leaves every other tenant's rows
untouched, and both its visible result and A's rows afterwards depend
only on A's rows before (equivalently: they are independent of every
other tenant's rows). -/
def Isolated {β : Type} (f : String → DB → β × DB) : Prop :=
  ∀ (A B : String) (db1 db2 : DB), B ≠ A → restrict A db1 = restrict A db2 →
    restrict B (f A db1).2 = restrict B db1 ∧
    (f A db1).1 = (f A db2).1 ∧
    restrict A (f A db1).2 = restrict A (f A db2).2

/-! ## Concrete inputs for exercising the theorems -/

/-- The spec's scenario rule: start 2026-01-01, monthly, 3 occurrences,
amount 100. -/
def wRule : RecurringExpense :=
  { userId := "", flow := "", id := "r1", name := "Rent", amount := 100, currency := "usd",
    tags := [], category := "Housing", startDate := ⟨2026, 1, 1, 0⟩, interval := "monthly",
    occurrences := 3 }

/-- A concrete "now" instant. -/
def wToday : GoTime := ⟨2026, 1, 15, 43200⟩

/-- The empty database. -/
def wDB : DB := ⟨[], [], [], []⟩

/-- A stored instance of `wRule` dated in the past (before `wToday`). -/
def wPast : Expense :=
  { userId := "T", flow := "", id := "e1", recurringId := "r1", name := "Rent",
    tags := [], category := "Housing", amount := 100, currency := "usd",
    source := "", card := "", date := ⟨2026, 1, 1, 0⟩ }

/-- A stored instance of `wRule` dated in the future (after `wToday`). -/
def wFuture : Expense := { wPast with id := "e2", date := ⟨2026, 2, 1, 0⟩ }

/-- A database holding `wRule` for tenant `T` with one past and one future
instance. -/
def wDB2 : DB :=
  { expenses := [wPast, wFuture],
    recurring := [{ wRule with userId := "T" }],
    categories := [],
    userConfig := [⟨"T", "usd", 1⟩] }

/-- `wDB2` with an extra expense row stored under tenant `U` whose id
collides with tenant `T`'s row `e1`. -/
def wDBU : DB :=
  { wDB2 with expenses := wDB2.expenses ++ [{ wPast with userId := "U" }] }

/-! ## Calendar lemmas -/

/-- The valid interval set of `RecurringExpense.Validate`. -/
def validInterval (i : String) : Prop :=
  i = "daily" ∨ i = "weekly" ∨ i = "monthly" ∨ i = "yearly"

instance (i : String) : Decidable (validInterval i) := by
  unfold validInterval; infer_instance

theorem daysFromYear_succ (y : Int) :
    daysFromYear (y + 1) = daysFromYear y + 365 + (if isLeap y then 1 else 0) := by
  by_cases h4 : y % 4 = 0 <;> by_cases h100 : y % 100 = 0 <;> by_cases h400 : y % 400 = 0 <;>
    simp [daysFromYear, isLeap, h4, h100, h400] <;> omega

theorem daysInMonth_ge (y m : Int) : 28 ≤ daysInMonth y m := by
  unfold daysInMonth; split_ifs <;> omega

theorem daysInMonth_le (y m : Int) : daysInMonth y m ≤ 31 := by
  unfold daysInMonth; split_ifs <;> omega

theorem month_split (m : Int) (h1 : 1 ≤ m) (h2 : m ≤ 12) :
    m = 1 ∨ m = 2 ∨ m = 3 ∨ m = 4 ∨ m = 5 ∨ m = 6 ∨ m = 7 ∨ m = 8 ∨
      m = 9 ∨ m = 10 ∨ m = 11 ∨ m = 12 := by omega

theorem daysBeforeMonth_succ (y m : Int) (h1 : 1 ≤ m) (h2 : m ≤ 11) :
    daysBeforeMonth y (m + 1) = daysBeforeMonth y m + daysInMonth y m := by
  rcases month_split m h1 (by omega) with rfl|rfl|rfl|rfl|rfl|rfl|rfl|rfl|rfl|rfl|rfl|rfl
  all_goals try omega
  all_goals cases hL : isLeap y <;> norm_num [daysBeforeMonth, daysInMonth, hL]

theorem daysBeforeMonth_year12 (y m : Int) (h1 : 1 ≤ m) (h2 : m ≤ 12) :
    daysBeforeMonth y m - 1 ≤ daysBeforeMonth (y + 1) m ∧
      daysBeforeMonth (y + 1) m ≤ daysBeforeMonth y m + 1 := by
  rcases month_split m h1 h2 with rfl|rfl|rfl|rfl|rfl|rfl|rfl|rfl|rfl|rfl|rfl|rfl <;>
    cases hL1 : isLeap y <;> cases hL2 : isLeap (y + 1) <;>
      norm_num [daysBeforeMonth, hL1, hL2]

theorem dayStep_spec (t : GoTime) (h : ValidTime t) :
    ValidTime (dayStep t) ∧ absTime (dayStep t) = absTime t + 86400 := by
  obtain ⟨Y, M, D, C⟩ := t
  obtain ⟨hm1, hm2, hd1, hd2, hc1, hc2⟩ := h
  simp only at hm1 hm2 hd1 hd2 hc1 hc2
  have hge := daysInMonth_ge Y M
  have hle := daysInMonth_le Y M
  simp only [dayStep]
  split_ifs with hlt hm
  · simp only at hlt
    simp only [ValidTime, absTime, dateAbs]
    refine ⟨⟨hm1, hm2, by omega, by simpa using hlt, hc1, hc2⟩, by omega⟩
  · simp only at hlt hm
    have hsucc := daysBeforeMonth_succ Y M hm1 (by omega)
    have hpos := daysInMonth_ge Y (M + 1)
    simp only [ValidTime, absTime, dateAbs]
    refine ⟨⟨by omega, by omega, by omega, by omega, hc1, hc2⟩, by omega⟩
  · simp only at hlt hm
    have h12 : M = 12 := by omega
    subst h12
    have hfy := daysFromYear_succ Y
    have h31 : daysInMonth Y 12 = 31 := by norm_num [daysInMonth]
    have hb12 : daysBeforeMonth Y 12 = 334 + (if isLeap Y then 1 else 0) := by
      norm_num [daysBeforeMonth]
    have hb1 : daysBeforeMonth (Y + 1) 1 = 0 := by norm_num [daysBeforeMonth]
    have hd28 : 28 ≤ daysInMonth (Y + 1) 1 := daysInMonth_ge (Y + 1) 1
    simp only [ValidTime, absTime, dateAbs]
    refine ⟨⟨by omega, by omega, by omega, by omega, hc1, hc2⟩, ?_⟩
    rw [hb12, hfy, hb1]
    split_ifs <;> omega

theorem addDays_spec (n : Nat) (t : GoTime) (h : ValidTime t) :
    ValidTime (addDays n t) ∧ absTime (addDays n t) = absTime t + 86400 * n := by
  induction n with
  | zero => simpa [addDays] using h
  | succ k ih =>
    have hstep := dayStep_spec (addDays k t) ih.1
    refine ⟨?_, ?_⟩
    · simpa [addDays, Function.iterate_succ_apply'] using hstep.1
    · have : addDays (k + 1) t = dayStep (addDays k t) := by
        simp [addDays, Function.iterate_succ_apply']
      rw [this, hstep.2, ih.2]
      push_cast
      ring

theorem addMonth_spec (t : GoTime) (h : ValidTime t) :
    ValidTime (addMonth t) ∧ absTime t + 86400 ≤ absTime (addMonth t) := by
  obtain ⟨Y, M, D, C⟩ := t
  obtain ⟨hm1, hm2, hd1, hd2, hc1, hc2⟩ := h
  simp only at hm1 hm2 hd1 hd2 hc1 hc2
  have hle := daysInMonth_le Y M
  simp only [addMonth]
  by_cases hM : M < 12
  · simp only [if_pos hM]
    have hsucc := daysBeforeMonth_succ Y M hm1 (by omega)
    have hge' := daysInMonth_ge Y (M + 1)
    have hle' := daysInMonth_le Y (M + 1)
    have hge := daysInMonth_ge Y M
    split_ifs with hfit hsp
    · simp only [ValidTime, absTime, dateAbs]
      refine ⟨⟨by omega, by omega, by omega, by simpa using hfit, hc1, hc2⟩, by omega⟩
    · simp only at hfit hsp
      have hsucc2 := daysBeforeMonth_succ Y (M + 1) (by omega) (by omega)
      have hge2 := daysInMonth_ge Y (M + 1 + 1)
      simp only [ValidTime, absTime, dateAbs]
      refine ⟨⟨by omega, by omega, by omega, by omega, hc1, hc2⟩, by omega⟩
    · exfalso
      simp only at hfit hsp
      have hM11 : M = 11 := by omega
      subst hM11
      have : daysInMonth Y (11 + 1) = 31 := by norm_num [daysInMonth]
      omega
  · have hM12 : M = 12 := by omega
    subst hM12
    simp only [if_neg hM]
    have h31 : daysInMonth (Y + 1) 1 = 31 := by norm_num [daysInMonth]
    have hb12 : daysBeforeMonth Y 12 = 334 + (if isLeap Y then 1 else 0) := by
      norm_num [daysBeforeMonth]
    have hb1 : daysBeforeMonth (Y + 1) 1 = 0 := by norm_num [daysBeforeMonth]
    have hfy := daysFromYear_succ Y
    split_ifs with hfit hsp
    · simp only [ValidTime, absTime, dateAbs]
      refine ⟨⟨by omega, by omega, by omega, by simpa using hfit, hc1, hc2⟩, ?_⟩
      rw [hb12, hb1, hfy]
      split_ifs <;> omega
    · simp only at hfit
      exfalso
      omega
    · simp only at hfit
      exfalso
      omega

theorem addYear_spec (t : GoTime) (h : ValidTime t) :
    ValidTime (addYear t) ∧ absTime t + 86400 ≤ absTime (addYear t) := by
  obtain ⟨Y, M, D, C⟩ := t
  obtain ⟨hm1, hm2, hd1, hd2, hc1, hc2⟩ := h
  simp only at hm1 hm2 hd1 hd2 hc1 hc2
  have hle := daysInMonth_le Y M
  have hge := daysInMonth_ge Y M
  have hge' := daysInMonth_ge (Y + 1) M
  have hle' := daysInMonth_le (Y + 1) M
  have hfy := daysFromYear_succ Y
  have hby := daysBeforeMonth_year12 Y M hm1 hm2
  simp only [addYear]
  split_ifs with hfit hsp
  · simp only at hfit
    simp only [ValidTime, absTime, dateAbs]
    refine ⟨⟨hm1, hm2, by omega, by simpa using hfit, hc1, hc2⟩, ?_⟩
    rw [hfy]
    split_ifs <;> omega
  · simp only at hfit hsp
    have hsucc := daysBeforeMonth_succ (Y + 1) M hm1 (by omega)
    have hge2 := daysInMonth_ge (Y + 1) (M + 1)
    simp only [ValidTime, absTime, dateAbs]
    refine ⟨⟨by omega, by omega, by omega, by omega, hc1, hc2⟩, ?_⟩
    rw [hfy]
    split_ifs <;> omega
  · simp only at hfit hsp
    exfalso
    have hM12 : M = 12 := by omega
    subst hM12
    have : daysInMonth (Y + 1) 12 = 31 := by norm_num [daysInMonth]
    omega

theorem stepInterval_eq_stepFn (i : String) (t : GoTime) (hv : validInterval i) :
    stepInterval i t = some (stepFn i t) := by
  rcases hv with h | h | h | h <;> subst h <;> simp [stepInterval, stepFn]

theorem stepFn_spec (i : String) (t : GoTime) (hv : validInterval i) (h : ValidTime t) :
    ValidTime (stepFn i t) ∧ absTime t + 86400 ≤ absTime (stepFn i t) := by
  rcases hv with hi | hi | hi | hi <;> subst hi
  · have hd := addDays_spec 1 t h
    have : stepFn "daily" t = addDays 1 t := by simp [stepFn, stepInterval]
    rw [this]
    exact ⟨hd.1, by omega⟩
  · have hd := addDays_spec 7 t h
    have : stepFn "weekly" t = addDays 7 t := by simp [stepFn, stepInterval]
    rw [this]
    exact ⟨hd.1, by omega⟩
  · have hd := addMonth_spec t h
    have : stepFn "monthly" t = addMonth t := by simp [stepFn, stepInterval]
    rw [this]
    exact hd
  · have hd := addYear_spec t h
    have : stepFn "yearly" t = addYear t := by simp [stepFn, stepInterval]
    rw [this]
    exact hd

theorem stepFn_iterate_spec (i : String) (t : GoTime) (hv : validInterval i)
    (h : ValidTime t) (k : Nat) :
    ValidTime ((stepFn i)^[k] t) ∧
      absTime t + 86400 * k ≤ absTime ((stepFn i)^[k] t) := by
  induction k with
  | zero => simpa using h
  | succ n ih =>
    have hs := stepFn_spec i ((stepFn i)^[n] t) hv ih.1
    rw [Function.iterate_succ_apply']
    refine ⟨hs.1, ?_⟩
    have h1 := hs.2
    have h2 := ih.2
    omega

theorem stepFn_iterate_strict (i : String) (t : GoTime) (hv : validInterval i)
    (h : ValidTime t) (j k : Nat) (hjk : j < k) :
    absTime ((stepFn i)^[j] t) < absTime ((stepFn i)^[k] t) := by
  have hbase := stepFn_iterate_spec i t hv h j
  have hrest := stepFn_iterate_spec i ((stepFn i)^[j] t) hv hbase.1 (k - j)
  have hk : k = (k - j) + j := by omega
  rw [hk, Function.iterate_add_apply]
  have h2 := hrest.2
  omega

/-! ## Generator lemmas -/

theorem timeBefore_iff (a b : GoTime) : timeBefore a b = true ↔ absTime a < absTime b := by
  simp [timeBefore]

theorem Validate_ok_facts (e e' : RecurringExpense) (h : e.Validate = .ok e') :
    2 ≤ e.occurrences ∧ validInterval e.interval ∧
      e'.occurrences = e.occurrences ∧ e'.interval = e.interval ∧
      e'.startDate = e.startDate ∧ e'.id = e.id ∧ e'.currency = e.currency ∧
      e'.category = e.category ∧ e'.amount = e.amount := by
  simp only [RecurringExpense.Validate] at h
  split_ifs at h with h1 h2 h3 h4 h5 h6 <;>
    simp only [Except.ok.injEq, reduceCtorEq] at h <;>
    subst h <;>
    exact ⟨by omega, h5, rfl, rfl, rfl, rfl, rfl, rfl, rfl⟩

theorem genLoop_eq_map (uid : String) (re : RecurringExpense) (hv : validInterval re.interval) :
    ∀ (n seed : Nat) (cur : GoTime),
      genLoop uid re seed n cur = (List.range n).map fun k =>
        { userId := uid, flow := "", id := genId (seed + k), recurringId := re.id,
          name := re.name, tags := re.tags, category := re.category,
          amount := re.amount, currency := re.currency, source := "", card := "",
          date := (stepFn re.interval)^[k] cur } := by
  intro n
  induction n with
  | zero => intro seed cur; simp [genLoop]
  | succ m ih =>
    intro seed cur
    rw [genLoop, stepInterval_eq_stepFn _ _ hv]
    simp only [List.range_succ_eq_map, List.map_cons, List.map_map]
    rw [List.cons.injEq]
    refine ⟨by simp, ?_⟩
    rw [ih (seed + 1) (stepFn re.interval cur)]
    apply List.map_congr_left
    intro k _
    simp only [Function.comp_apply]
    have h1 : seed + 1 + k = seed + Nat.succ k := by omega
    have h2 : (stepFn re.interval)^[k] (stepFn re.interval cur) =
        (stepFn re.interval)^[Nat.succ k] cur :=
      (Function.iterate_succ_apply _ _ _).symm
    rw [h1, h2]

theorem genLoop_length (uid : String) (re : RecurringExpense) (hv : validInterval re.interval)
    (n seed : Nat) (cur : GoTime) : (genLoop uid re seed n cur).length = n := by
  rw [genLoop_eq_map uid re hv n seed cur]
  simp

theorem defaultedRule_spec (uid : String) (re : RecurringExpense) (seed : Nat) (db : DB) :
    ((defaultedRule uid re seed db).1.name = re.name ∧
      (defaultedRule uid re seed db).1.category = re.category ∧
      (defaultedRule uid re seed db).1.amount = re.amount ∧
      (defaultedRule uid re seed db).1.tags = re.tags ∧
      (defaultedRule uid re seed db).1.startDate = re.startDate ∧
      (defaultedRule uid re seed db).1.interval = re.interval ∧
      (defaultedRule uid re seed db).1.occurrences = re.occurrences) ∧
    ((defaultedRule uid re seed db).2.expenses = db.expenses ∧
      (defaultedRule uid re seed db).2.recurring = db.recurring ∧
      (defaultedRule uid re seed db).2.categories = db.categories) := by
  unfold defaultedRule currencyDefault GetCurrency getOrCreateUserConfig
  cases h : db.userConfig.find? (fun r => r.userId == uid) <;>
    simp only [h] <;> split_ifs <;> simp

/-- C1: for every valid recurring rule with occurrences = N,
`AddRecurringExpense` persists the rule row plus exactly N expense
instances, each carrying `recurringId` = the persisted rule's id and the
rule's name/category/amount/currency/tags, the k-th dated `startDate`
advanced by k interval steps, so instance dates are strictly
increasing. -/
theorem C1_createRecurring_materializes (uid : String) (re : RecurringExpense)
    (today : GoTime) (seed : Nat) (db : DB)
    (hval : re.Validate = .ok re) (hstart : ValidTime re.startDate) :
    let r := (defaultedRule uid re seed db).1
    let gen := generateExpensesFromRecurring uid r false today (seed + 1)
    let db' := AddRecurringExpense uid re today seed db
    db'.expenses = db.expenses ++ gen ∧
    db'.recurring = db.recurring ++ [storeRecurring uid r] ∧
    gen.length = re.occurrences.toNat ∧
    (∀ (k : Nat) (hk : k < gen.length),
      (gen.get ⟨k, hk⟩).userId = uid ∧
      (gen.get ⟨k, hk⟩).recurringId = r.id ∧
      (gen.get ⟨k, hk⟩).name = r.name ∧
      (gen.get ⟨k, hk⟩).category = r.category ∧
      (gen.get ⟨k, hk⟩).amount = r.amount ∧
      (gen.get ⟨k, hk⟩).currency = r.currency ∧
      (gen.get ⟨k, hk⟩).tags = r.tags ∧
      (gen.get ⟨k, hk⟩).date = (stepFn re.interval)^[k] re.startDate) ∧
    (∀ (j k : Nat) (hj : j < gen.length) (hk : k < gen.length), j < k →
      timeBefore (gen.get ⟨j, hj⟩).date (gen.get ⟨k, hk⟩).date = true) := by
  intro r gen db'
  obtain ⟨hocc, hv, -⟩ := Validate_ok_facts re re hval
  obtain ⟨⟨hrn, hrc, hra, hrt, hrs, hri, hro⟩, hde, hdr, hdc⟩ :=
    defaultedRule_spec uid re seed db
  have hro' : r.occurrences = re.occurrences := hro
  have hrs' : r.startDate = re.startDate := hrs
  have hri' : r.interval = re.interval := hri
  have hvr : validInterval r.interval := by rw [hri']; exact hv
  have hgen : gen = (List.range re.occurrences.toNat).map fun k =>
      { userId := uid, flow := "", id := genId (seed + 1 + k), recurringId := r.id,
        name := r.name, tags := r.tags, category := r.category,
        amount := r.amount, currency := r.currency, source := "", card := "",
        date := (stepFn re.interval)^[k] re.startDate } := by
    show generateExpensesFromRecurring uid r false today (seed + 1) = _
    simp only [generateExpensesFromRecurring, Bool.false_eq_true, if_false]
    rw [genLoop_eq_map uid r hvr r.occurrences.toNat (seed + 1) r.startDate,
      hro', hrs', hri']
  refine ⟨?_, ?_, ?_, ?_, ?_⟩
  · show (AddRecurringExpense uid re today seed db).expenses = _
    simp only [AddRecurringExpense]
    rw [hde]
  · show (AddRecurringExpense uid re today seed db).recurring = _
    simp only [AddRecurringExpense]
    rw [hdr]
  · rw [hgen]; simp
  · intro k hk
    simp [hgen, List.getElem_map, List.getElem_range]
  · intro j k hj hk hjk
    have hjd : (gen.get ⟨j, hj⟩).date = (stepFn re.interval)^[j] re.startDate := by
      simp only [hgen, List.get_eq_getElem, List.getElem_map, List.getElem_range]
    have hkd : (gen.get ⟨k, hk⟩).date = (stepFn re.interval)^[k] re.startDate := by
      simp only [hgen, List.get_eq_getElem, List.getElem_map, List.getElem_range]
    rw [hjd, hkd, timeBefore_iff]
    exact stepFn_iterate_strict re.interval re.startDate hv hstart j k hjk

/-- C9: a rule whose `Occurrences` field is 0 generates no instances at
all in full mode — the "0 means indefinite" heuristic is not active. -/
theorem C9_zero_occurrences_full_empty (uid : String) (re : RecurringExpense)
    (today : GoTime) (seed : Nat) (h : re.occurrences = 0) :
    generateExpensesFromRecurring uid re false today seed = [] := by
  simp [generateExpensesFromRecurring, h, genLoop]

/-- Witness for C1: the scenario rule yields exactly the instances dated
2026-01-01, 2026-02-01, 2026-03-01, each with amount 100. -/
theorem C1_createRecurring_materializes_witness :
    wRule.Validate = .ok wRule ∧ ValidTime wRule.startDate ∧
    ((generateExpensesFromRecurring "T" (defaultedRule "T" wRule 0 wDB).1 false wToday 1).map
        (fun e => e.date) = [⟨2026, 1, 1, 0⟩, ⟨2026, 2, 1, 0⟩, ⟨2026, 3, 1, 0⟩] ∧
      (generateExpensesFromRecurring "T" (defaultedRule "T" wRule 0 wDB).1 false wToday 1).all
        (fun e => e.amount == 100) = true) ∧
    (AddRecurringExpense "T" wRule wToday 0 wDB).expenses =
      wDB.expenses ++
        generateExpensesFromRecurring "T" (defaultedRule "T" wRule 0 wDB).1 false wToday 1 := by
  have h := C1_createRecurring_materializes "T" wRule wToday 0 wDB (by rfl) (by decide)
  exact ⟨by rfl, by decide, ⟨by decide, by decide⟩, h.1⟩

/-- Witness for C9: a zero-occurrence rule generates nothing in full mode. -/
theorem C9_zero_occurrences_full_empty_witness :
    ({ wRule with occurrences := 0 } : RecurringExpense).occurrences = 0 ∧
      generateExpensesFromRecurring "T" { wRule with occurrences := 0 } false wToday 0 = [] :=
  ⟨rfl, C9_zero_occurrences_full_empty "T" { wRule with occurrences := 0 } wToday 0 rfl⟩

/-! ## Sanitizer lemmas -/

theorem replaceInvalid_allowed (l : List Char) :
    ∀ c ∈ replaceInvalid l, isAllowedChar c = true := by
  intro c hc
  rcases List.mem_map.mp hc with ⟨a, -, ha⟩
  by_cases h : isAllowedChar a = true
  · rw [if_pos h] at ha
    exact ha ▸ h
  · rw [if_neg h] at ha
    rw [← ha]
    decide

theorem replaceInvalid_id (l : List Char) (h : ∀ c ∈ l, isAllowedChar c = true) :
    replaceInvalid l = l := by
  have hcg : ∀ c ∈ l, (if isAllowedChar c then c else ' ') = id c := by
    intro c hc
    rw [if_pos (h c hc)]
    rfl
  unfold replaceInvalid
  rw [List.map_congr_left hcg, List.map_id]

theorem collapseSpaces_mem (l : List Char) :
    ∀ c ∈ collapseSpaces l, c = ' ' ∨ (c ∈ l ∧ isSpaceChar c = false) := by
  induction l using collapseSpaces.induct with
  | case1 => simp [collapseSpaces]
  | case2 c =>
    intro x hx
    simp only [collapseSpaces, List.mem_singleton] at hx
    subst hx
    by_cases h : isSpaceChar c <;> simp [h]
  | case3 c1 c2 rest h ih =>
    intro x hx
    rw [collapseSpaces, if_pos h] at hx
    rcases ih x hx with h1 | h1
    · exact Or.inl h1
    · exact Or.inr ⟨List.mem_cons_of_mem _ h1.1, h1.2⟩
  | case4 c1 c2 rest h ih =>
    intro x hx
    rw [collapseSpaces, if_neg h] at hx
    rcases List.mem_cons.mp hx with h1 | h1
    · subst h1
      by_cases hs : isSpaceChar c1 = true
      · exact Or.inl (by simp [hs])
      · simp only [if_neg hs]
        exact Or.inr ⟨List.mem_cons_self _ _, by simpa using hs⟩
    · rcases ih x h1 with h2 | h2
      · exact Or.inl h2
      · exact Or.inr ⟨List.mem_cons_of_mem _ h2.1, h2.2⟩

theorem collapseSpaces_cons_nonspace (c : Char) (rest : List Char)
    (h : isSpaceChar c = false) :
    collapseSpaces (c :: rest) = c :: collapseSpaces rest := by
  match rest with
  | [] => simp [collapseSpaces, h]
  | c2 :: r => rw [collapseSpaces, if_neg (by simp [h]), if_neg (by simp [h])]

theorem collapseSpaces_chain (l : List Char) :
    List.Chain' (fun a b => ¬(isSpaceChar a = true ∧ isSpaceChar b = true))
      (collapseSpaces l) := by
  induction l using collapseSpaces.induct with
  | case1 => simp [collapseSpaces]
  | case2 c => by_cases h : isSpaceChar c <;> simp [collapseSpaces, h]
  | case3 c1 c2 rest h ih => rw [collapseSpaces, if_pos h]; exact ih
  | case4 c1 c2 rest h ih =>
    rw [collapseSpaces, if_neg h]
    by_cases h2 : isSpaceChar c2 = true
    · have h1 : isSpaceChar c1 = false := by
        rcases Bool.dichotomy (isSpaceChar c1) with hh | hh
        · exact hh
        · exact absurd (by simp [hh, h2]) h
      simp only [if_neg (by simp [h1] : ¬ isSpaceChar c1 = true)]
      apply List.Chain'.cons'
      · exact ih
      · intro y hy
        simp [h1]
    · rw [collapseSpaces_cons_nonspace c2 rest (by simpa using h2)]
      apply List.Chain'.cons'
      · rw [← collapseSpaces_cons_nonspace c2 rest (by simpa using h2)]
        exact ih
      · intro y hy
        simp only [List.head?_cons, Option.mem_def, Option.some.injEq] at hy
        subst hy
        exact fun hc => h2 hc.2

theorem collapseSpaces_id (l : List Char)
    (hs : ∀ c ∈ l, isSpaceChar c = true → c = ' ')
    (hc : List.Chain' (fun a b => ¬(isSpaceChar a = true ∧ isSpaceChar b = true)) l) :
    collapseSpaces l = l := by
  induction l using collapseSpaces.induct with
  | case1 => simp [collapseSpaces]
  | case2 c =>
    by_cases h : isSpaceChar c = true
    · simp only [collapseSpaces, if_pos h]
      rw [(hs c (by simp) h)]
    · simp [collapseSpaces, h]
  | case3 c1 c2 rest h ih =>
    exfalso
    rcases List.chain'_cons.mp hc with ⟨hp, -⟩
    simp only [Bool.and_eq_true] at h
    exact hp ⟨h.1, h.2⟩
  | case4 c1 c2 rest h ih =>
    rw [collapseSpaces, if_neg h]
    rcases List.chain'_cons.mp hc with ⟨hp, hc'⟩
    have htail : collapseSpaces (c2 :: rest) = c2 :: rest :=
      ih (fun c hcm hcs => hs c (List.mem_cons_of_mem _ hcm) hcs) hc'
    rw [htail]
    by_cases h1 : isSpaceChar c1 = true
    · rw [if_pos h1, (hs c1 (by simp) h1)]
    · rw [if_neg h1]

theorem dropWhile_head_false (p : Char → Bool) :
    ∀ (l : List Char) (c : Char) (t : List Char), l.dropWhile p = c :: t → p c = false := by
  intro l
  induction l with
  | nil => intro c t h; simp at h
  | cons a l ih =>
    intro c t h
    rw [List.dropWhile_cons] at h
    split_ifs at h with ha
    · exact ih c t h
    · cases h
      simpa using ha

theorem dropRight_isPref (p : Char → Bool) (l : List Char) :
    ((l.reverse.dropWhile p).reverse) <+: l := by
  rw [← List.reverse_suffix, List.reverse_reverse]
  exact List.dropWhile_suffix p

theorem trimSpaces_isInf (l : List Char) : trimSpaces l <:+: l := by
  unfold trimSpaces
  exact ((dropRight_isPref isSpaceChar (l.dropWhile isSpaceChar)).isInfix).trans
    (List.dropWhile_suffix isSpaceChar).isInfix

theorem dropWhile_idem (p : Char → Bool) (l : List Char) :
    (l.dropWhile p).dropWhile p = l.dropWhile p := by
  cases h : l.dropWhile p with
  | nil => simp
  | cons c t =>
    rw [List.dropWhile_cons, if_neg]
    rw [dropWhile_head_false p l c t h]
    simp

theorem trimSpaces_idem (l : List Char) : trimSpaces (trimSpaces l) = trimSpaces l := by
  have hB : (trimSpaces l).reverse =
      List.dropWhile isSpaceChar (l.dropWhile isSpaceChar).reverse := by
    unfold trimSpaces
    rw [List.reverse_reverse]
  have hA : (trimSpaces l).dropWhile isSpaceChar = trimSpaces l := by
    cases hvc : trimSpaces l with
    | nil => simp
    | cons c t =>
      have hpre : trimSpaces l <+: l.dropWhile isSpaceChar := by
        unfold trimSpaces
        exact dropRight_isPref isSpaceChar (l.dropWhile isSpaceChar)
      rw [hvc] at hpre
      rcases hpre with ⟨r, hr⟩
      have hfalse : isSpaceChar c = false := by
        apply dropWhile_head_false isSpaceChar l c (t ++ r)
        rw [← hr]
        simp
      rw [List.dropWhile_cons, if_neg (by simp [hfalse])]
  calc trimSpaces (trimSpaces l)
      = (((trimSpaces l).dropWhile isSpaceChar).reverse.dropWhile isSpaceChar).reverse := rfl
    _ = ((trimSpaces l).reverse.dropWhile isSpaceChar).reverse := by rw [hA]
    _ = ((List.dropWhile isSpaceChar
          ((l.dropWhile isSpaceChar).reverse)).dropWhile isSpaceChar).reverse := by rw [hB]
    _ = (List.dropWhile isSpaceChar ((l.dropWhile isSpaceChar).reverse)).reverse := by
          rw [dropWhile_idem]
    _ = trimSpaces l := by
          unfold trimSpaces
          rfl

theorem sanitizePipeline_idem (l : List Char) :
    trimSpaces (collapseSpaces (replaceInvalid
        (trimSpaces (collapseSpaces (replaceInvalid l))))) =
      trimSpaces (collapseSpaces (replaceInvalid l)) := by
  have hallow : ∀ c ∈ trimSpaces (collapseSpaces (replaceInvalid l)),
      isAllowedChar c = true := by
    intro c hc
    have hmem : c ∈ collapseSpaces (replaceInvalid l) :=
      (trimSpaces_isInf _).subset hc
    rcases collapseSpaces_mem _ c hmem with h1 | h1
    · rw [h1]; decide
    · exact replaceInvalid_allowed _ c h1.1
  have hspace : ∀ c ∈ trimSpaces (collapseSpaces (replaceInvalid l)),
      isSpaceChar c = true → c = ' ' := by
    intro c hc hs
    have hmem : c ∈ collapseSpaces (replaceInvalid l) :=
      (trimSpaces_isInf _).subset hc
    rcases collapseSpaces_mem _ c hmem with h1 | h1
    · exact h1
    · rw [h1.2] at hs
      exact absurd hs (by simp)
  have hchain : List.Chain' (fun a b => ¬(isSpaceChar a = true ∧ isSpaceChar b = true))
      (trimSpaces (collapseSpaces (replaceInvalid l))) :=
    List.Chain'.infix (collapseSpaces_chain _) (trimSpaces_isInf _)
  rw [replaceInvalid_id _ hallow, collapseSpaces_id _ hspace hchain, trimSpaces_idem]

/-- C10: `SanitizeString` is idempotent — an already sanitized name passes
through sanitization unchanged. -/
theorem C10_sanitize_idempotent (s : String) :
    SanitizeString (SanitizeString s) = SanitizeString s :=
  congrArg String.mk (sanitizePipeline_idem s.data)

/-- C8 counterexample: validation does not reject an unsupported currency
(an input with only that defect passes), and it does reject an empty
category, which the claimed defect list omits. -/
theorem C8_validation_counterexample :
    (SupportedCurrencies.contains "xyz" = false ∧
      ({ wRule with currency := "xyz" } : RecurringExpense).Validate =
        .ok { wRule with currency := "xyz" }) ∧
    ({ wRule with category := "" } : RecurringExpense).Validate =
      .error "recurring expense category cannot be empty" :=
  ⟨⟨by decide, by rfl⟩, by rfl⟩

/-- C8 (amended): `RecurringExpense.Validate` succeeds exactly when the
name is non-blank after sanitization, the category is non-empty,
occurrences ≥ 2, the start date is non-zero and the interval is in the
fixed set; the currency is never examined by validation. The check is a
pure function of the spec, so it happens before any persistence write. -/
theorem C8_validate_iff (e : RecurringExpense) :
    e.Validate.isOk = true ↔
      (SanitizeString e.name ≠ "" ∧ e.category ≠ "" ∧ 2 ≤ e.occurrences ∧
        e.startDate ≠ goZeroTime ∧ validInterval e.interval) := by
  unfold RecurringExpense.Validate
  split_ifs with h1 h2 h3 h4 h5 h6 <;>
    simp_all [Except.isOk, validInterval] <;>
    split_ifs with g1 g2 g3 g4 <;>
    simp_all [Except.toBool] <;>
    omega

/-! ## Rule update and removal lemmas -/

theorem currencyDefault_spec (uid : String) (re : RecurringExpense) (db : DB) :
    ((currencyDefault uid re db).1.id = re.id ∧
      (currencyDefault uid re db).1.name = re.name ∧
      (currencyDefault uid re db).1.category = re.category ∧
      (currencyDefault uid re db).1.amount = re.amount ∧
      (currencyDefault uid re db).1.tags = re.tags ∧
      (currencyDefault uid re db).1.startDate = re.startDate ∧
      (currencyDefault uid re db).1.interval = re.interval ∧
      (currencyDefault uid re db).1.occurrences = re.occurrences) ∧
    ((currencyDefault uid re db).2.expenses = db.expenses ∧
      (currencyDefault uid re db).2.recurring = db.recurring ∧
      (currencyDefault uid re db).2.categories = db.categories) := by
  unfold currencyDefault GetCurrency getOrCreateUserConfig
  cases h : db.userConfig.find? (fun r => r.userId == uid) <;>
    simp only [h] <;> split_ifs <;> simp

theorem genLoop_mem_fields (uid : String) (re : RecurringExpense) :
    ∀ (n seed : Nat) (cur : GoTime), ∀ e ∈ genLoop uid re seed n cur,
      e.userId = uid ∧ e.recurringId = re.id := by
  intro n
  induction n with
  | zero =>
    intro seed cur e he
    simp [genLoop] at he
  | succ m ih =>
    intro seed cur e he
    rw [genLoop] at he
    rcases List.mem_cons.mp he with h | h
    · subst h
      exact ⟨rfl, rfl⟩
    · cases hs : stepInterval re.interval cur with
      | none => rw [hs] at h; simp at h
      | some next => rw [hs] at h; exact ih (seed + 1) next e h

theorem generate_mem_fields (uid : String) (re : RecurringExpense) (ft : Bool)
    (today : GoTime) (seed : Nat) :
    ∀ e ∈ generateExpensesFromRecurring uid re ft today seed,
      e.userId = uid ∧ e.recurringId = re.id := by
  intro e he
  unfold generateExpensesFromRecurring at he
  split_ifs at he
  · cases hf : ffLoop re.interval re.occurrences today
        (ffFuel re.occurrences today re.startDate) re.startDate re.occurrences with
    | finished cur budget =>
      rw [hf] at he
      exact genLoop_mem_fields uid re budget.toNat seed cur e he
    | earlyReturn => rw [hf] at he; simp at he
    | outOfFuel => rw [hf] at he; simp at he
  · exact genLoop_mem_fields uid re re.occurrences.toNat seed re.startDate e he

/-- C4: with a stored rule matching (tenant, id) and a valid replacement
spec, `UpdateRecurringExpense` succeeds; with `updateAll = false` it keeps
exactly the rows that are not this rule's strictly-future instances (so
every instance dated on or before now survives unchanged) and appends the
regenerated instances, and the rule's instance count afterwards is the
preserved count plus the regenerated count; with `updateAll = true` no old
instance survives (the preserved count contribution is zero). -/
theorem C4_updateRecurring_partial_regeneration (uid id : String)
    (re : RecurringExpense) (today : GoTime) (seed : Nat) (db : DB)
    (updateAll : Bool)
    (hval : re.Validate = .ok re)
    (hmatch : db.recurring.countP (fun r => r.userId == uid && r.id == id) ≠ 0) :
    let re' := (currencyDefault uid { re with id := id } db).1
    let gen := generateExpensesFromRecurring uid re' (!updateAll) today seed
    let res := UpdateRecurringExpense uid id re updateAll today seed db
    res.1 = .ok () ∧
    res.2.expenses =
      db.expenses.filter (fun e =>
        !(e.userId == uid && e.recurringId == id &&
          (updateAll || timeBefore today e.date))) ++ gen ∧
    (∀ e ∈ db.expenses,
      ¬(e.userId = uid ∧ e.recurringId = id ∧ timeBefore today e.date = true) →
        updateAll = false → e ∈ res.2.expenses) ∧
    (res.2.expenses.filter (fun e => e.userId == uid && e.recurringId == id)).length =
      (db.expenses.filter (fun e =>
        e.userId == uid && e.recurringId == id &&
          (!updateAll && !(timeBefore today e.date)))).length + gen.length := by
  intro re' gen res
  obtain ⟨⟨hid, -, -, -, -, -, -, -⟩, hde, hdr, -⟩ :=
    currencyDefault_spec uid { re with id := id } db
  have hid' : re'.id = id := hid
  have hres : res = (.ok (), {
      (currencyDefault uid { re with id := id } db).2 with
      recurring := (currencyDefault uid { re with id := id } db).2.recurring.map fun r =>
        if r.userId == uid && r.id == id then
          { r with name := re'.name, amount := re'.amount, category := re'.category,
                   startDate := re'.startDate, interval := re'.interval,
                   occurrences := re'.occurrences, tags := re'.tags,
                   currency := re'.currency }
        else r,
      expenses := ((currencyDefault uid { re with id := id } db).2.expenses.filter fun e =>
        !(e.userId == uid && e.recurringId == id &&
          (updateAll || timeBefore today e.date))) ++ gen }) := by
    show UpdateRecurringExpense uid id re updateAll today seed db = _
    unfold UpdateRecurringExpense
    rw [if_neg (by rw [hdr]; exact hmatch)]
  rw [hres]
  refine ⟨rfl, ?_, ?_, ?_⟩
  · rw [hde]
  · intro e he hkeep hfalse
    rw [hde]
    apply List.mem_append_left
    apply List.mem_filter.mpr
    refine ⟨he, ?_⟩
    subst hfalse
    simp only [Bool.false_or]
    simp only [Bool.not_eq_eq_eq_not, Bool.not_true, Bool.and_eq_false_imp]
    intro hu
    rcases Bool.dichotomy (timeBefore today e.date) with ht | ht
    · exact ht
    · exfalso
      simp only [Bool.and_eq_true, beq_iff_eq] at hu
      exact hkeep ⟨hu.1, hu.2, ht⟩
  · rw [hde]
    rw [List.filter_append]
    have hgen : gen.filter (fun e => e.userId == uid && e.recurringId == id) = gen := by
      apply List.filter_eq_self.mpr
      intro e he
      obtain ⟨h1, h2⟩ := generate_mem_fields uid re' (!updateAll) today seed e he
      simp [h1, h2, hid']
    rw [hgen, List.filter_filter, List.length_append]
    congr 1
    apply congrArg List.length
    apply List.filter_congr
    intro e _
    cases hu : (e.userId == uid) <;> cases hr : (e.recurringId == id) <;>
      cases ht : timeBefore today e.date <;> cases updateAll <;> simp [hu, hr, ht]

/-- C5: `RemoveRecurringExpense` with `removeAll = false` deletes the rule
row scoped to (tenant, id) and exactly this rule's strictly-future
instances; every past-dated instance survives as the very same row, its
`recurringId` still set; when no rule row matches (tenant, id) the call
returns the not-found error and changes nothing. -/
theorem C5_removeRecurring_orphans_past (uid id : String) (today : GoTime) (db : DB) :
    (db.recurring.countP (fun r => r.userId == uid && r.id == id) = 0 →
      RemoveRecurringExpense uid id false today db =
        (.error (String.append (String.append "recurring expense with ID " id)
          " not found"), db)) ∧
    (db.recurring.countP (fun r => r.userId == uid && r.id == id) ≠ 0 →
      (RemoveRecurringExpense uid id false today db).1 = .ok () ∧
      (RemoveRecurringExpense uid id false today db).2.recurring =
        db.recurring.filter (fun r => !(r.userId == uid && r.id == id)) ∧
      (RemoveRecurringExpense uid id false today db).2.expenses =
        db.expenses.filter (fun e =>
          !(e.userId == uid && e.recurringId == id && timeBefore today e.date)) ∧
      (∀ e ∈ db.expenses, timeBefore today e.date = false →
        e ∈ (RemoveRecurringExpense uid id false today db).2.expenses)) := by
  constructor
  · intro h0
    unfold RemoveRecurringExpense
    rw [if_pos h0]
  · intro h0
    have hres : RemoveRecurringExpense uid id false today db =
        (.ok (), { db with
          recurring := db.recurring.filter (fun r => !(r.userId == uid && r.id == id)),
          expenses := db.expenses.filter (fun e =>
            !(e.userId == uid && e.recurringId == id &&
              (false || timeBefore today e.date))) }) := by
      unfold RemoveRecurringExpense
      rw [if_neg h0]
    rw [hres]
    refine ⟨rfl, rfl, by simp, ?_⟩
    intro e he ht
    simp only
    apply List.mem_filter.mpr
    refine ⟨he, by simp [ht]⟩

/-- Witness for C4: updating the stored scenario rule with
`updateAll = false` keeps the past instance and replaces the future one
with the regenerated set. -/
theorem C4_updateRecurring_partial_regeneration_witness :
    wRule.Validate = .ok wRule ∧
    wDB2.recurring.countP (fun r => r.userId == "T" && r.id == "r1") ≠ 0 ∧
    (UpdateRecurringExpense "T" "r1" wRule false wToday 5 wDB2).1 = .ok () ∧
    (UpdateRecurringExpense "T" "r1" wRule false wToday 5 wDB2).2.expenses =
      wPast :: generateExpensesFromRecurring "T"
        (currencyDefault "T" { wRule with id := "r1" } wDB2).1 true wToday 5 := by
  have h := C4_updateRecurring_partial_regeneration "T" "r1" wRule wToday 5 wDB2 false
    (by rfl) (by decide)
  refine ⟨by rfl, by decide, h.1, ?_⟩
  rw [h.2.1]
  decide

/-- Witness for C5: removing the stored scenario rule deletes the rule row
and the future instance, the past instance survives with its
`recurringId` intact; a missing id yields the not-found error. -/
theorem C5_removeRecurring_orphans_past_witness :
    (RemoveRecurringExpense "T" "nope" false wToday wDB2 =
      (.error "recurring expense with ID nope not found", wDB2)) ∧
    (RemoveRecurringExpense "T" "r1" false wToday wDB2).1 = .ok () ∧
    (RemoveRecurringExpense "T" "r1" false wToday wDB2).2.expenses = [wPast] ∧
    (RemoveRecurringExpense "T" "r1" false wToday wDB2).2.recurring = [] := by
  have hmiss := (C5_removeRecurring_orphans_past "T" "nope" wToday wDB2).1 (by decide)
  have hhit := (C5_removeRecurring_orphans_past "T" "r1" wToday wDB2).2 (by decide)
  refine ⟨hmiss, hhit.1, ?_, ?_⟩
  · rw [hhit.2.2.1]
    decide
  · rw [hhit.2.1]
    decide

/-! ## Category reconciliation lemmas -/

theorem upsertCategory_mem_pos (uid : String) (rows : List CatRow) (n : String) (p : Int)
    (r : CatRow) (hr : r ∈ upsertCategory uid rows n p) :
    (r.userId = uid ∧ r.name = n → r.position = p) ∧
      (¬(r.userId = uid ∧ r.name = n) → r ∈ rows) := by
  unfold upsertCategory at hr
  split_ifs at hr with hany
  · rcases List.mem_map.mp hr with ⟨a, ha, hae⟩
    by_cases hc : (a.userId == uid && a.name == n) = true
    · rw [if_pos hc] at hae
      subst hae
      simp only [Bool.and_eq_true, beq_iff_eq] at hc
      constructor
      · intro _
        rfl
      · intro hne
        exact absurd ⟨hc.1, hc.2⟩ hne
    · rw [if_neg hc] at hae
      subst hae
      constructor
      · intro hyes
        exact absurd (by simp [hyes.1, hyes.2]) hc
      · intro _
        exact ha
  · rcases List.mem_append.mp hr with ha | ha
    · constructor
      · intro hyes
        exfalso
        apply hany
        rw [List.any_eq_true]
        exact ⟨r, ha, by simp [hyes.1, hyes.2]⟩
      · intro _
        exact ha
    · simp only [List.mem_singleton] at ha
      subst ha
      exact ⟨fun _ => rfl, fun hne => absurd ⟨rfl, rfl⟩ hne⟩

theorem upsertCategory_keeps (uid : String) (rows : List CatRow) (n : String) (p : Int)
    (r : CatRow) (hr : r ∈ rows) (hne : ¬(r.userId = uid ∧ r.name = n)) :
    r ∈ upsertCategory uid rows n p := by
  unfold upsertCategory
  split_ifs with hany
  · apply List.mem_map.mpr
    refine ⟨r, hr, ?_⟩
    rw [if_neg]
    intro hc
    simp only [Bool.and_eq_true, beq_iff_eq] at hc
    exact hne ⟨hc.1, hc.2⟩
  · exact List.mem_append_left _ hr

theorem upsertCategory_presence (uid : String) (rows : List CatRow) (n : String) (p : Int)
    (nm : String) (h : ∃ r ∈ rows, r.userId = uid ∧ r.name = nm) :
    ∃ r ∈ upsertCategory uid rows n p, r.userId = uid ∧ r.name = nm := by
  rcases h with ⟨r, hr, hru, hrn⟩
  unfold upsertCategory
  split_ifs with hany
  · refine ⟨if (r.userId == uid && r.name == n) = true then { r with position := p } else r,
      List.mem_map.mpr ⟨r, hr, rfl⟩, ?_⟩
    split_ifs <;> exact ⟨hru, hrn⟩
  · exact ⟨r, List.mem_append_left _ hr, hru, hrn⟩

theorem upsertCategory_self (uid : String) (rows : List CatRow) (n : String) (p : Int) :
    ∃ r ∈ upsertCategory uid rows n p, r.userId = uid ∧ r.name = n ∧ r.position = p := by
  unfold upsertCategory
  split_ifs with hany
  · rcases List.any_eq_true.mp hany with ⟨a, ha, hc⟩
    simp only [Bool.and_eq_true, beq_iff_eq] at hc
    refine ⟨{ a with position := p }, List.mem_map.mpr ⟨a, ha, ?_⟩, hc.1, hc.2, rfl⟩
    rw [if_pos (by simp [hc.1, hc.2])]
  · exact ⟨⟨uid, n, p⟩, List.mem_append_right _ (by simp), rfl, rfl, rfl⟩

theorem upsertCategories_frame (uid : String) :
    ∀ (todo : List (Nat × String)) (rows : List CatRow) (r : CatRow),
      ¬(r.userId = uid ∧ (todo.map Prod.snd).contains r.name = true) →
      (r ∈ upsertCategories uid rows todo ↔ r ∈ rows) := by
  intro todo
  induction todo with
  | nil => intro rows r _; rfl
  | cons hd rest ih =>
    intro rows r hne
    obtain ⟨i, m⟩ := hd
    have hne1 : ¬(r.userId = uid ∧ r.name = m) := by
      intro hc
      exact hne ⟨hc.1, by simp [hc.2]⟩
    have hne2 : ¬(r.userId = uid ∧ (rest.map Prod.snd).contains r.name = true) := by
      intro hc
      refine hne ⟨hc.1, ?_⟩
      simp only [List.map_cons, List.contains_cons, Bool.or_eq_true]
      exact Or.inr hc.2
    constructor
    · intro h
      have h1 : r ∈ upsertCategory uid rows m ((i : Int) + 1) :=
        (ih _ r hne2).mp h
      exact (upsertCategory_mem_pos uid rows m _ r h1).2 hne1
    · intro h
      exact (ih _ r hne2).mpr (upsertCategory_keeps uid rows m _ r h hne1)

theorem upsertCategories_pos (uid : String) :
    ∀ (todo : List (Nat × String)) (rows : List CatRow) (r : CatRow),
      r ∈ upsertCategories uid rows todo → r.userId = uid →
      (todo.map Prod.snd).contains r.name = true →
      r.position = lastPos todo r.name := by
  intro todo
  induction todo with
  | nil => intro rows r _ _ hc; simp at hc
  | cons hd rest ih =>
    intro rows r hr hu hc
    obtain ⟨i, m⟩ := hd
    by_cases hrest : (rest.map Prod.snd).contains r.name = true
    · have := ih _ r hr hu hrest
      rw [this, lastPos, if_pos hrest]
    · have hm : r.name = m := by
        simp only [List.map_cons, List.contains_cons, Bool.or_eq_true, beq_iff_eq] at hc
        rcases hc with h | h
        · exact h
        · exact absurd h hrest
      have hframe : r ∈ upsertCategory uid rows m ((i : Int) + 1) :=
        (upsertCategories_frame uid rest _ r (fun hx => hrest hx.2)).mp hr
      have hpos := (upsertCategory_mem_pos uid rows m _ r hframe).1 ⟨hu, hm⟩
      rw [hpos, lastPos, hm, if_neg (by rw [← hm]; exact hrest), if_pos rfl]

theorem upsertCategories_presence_step (uid : String) :
    ∀ (todo : List (Nat × String)) (rows : List CatRow) (nm : String),
      (∃ r ∈ rows, r.userId = uid ∧ r.name = nm) →
      ∃ r ∈ upsertCategories uid rows todo, r.userId = uid ∧ r.name = nm := by
  intro todo
  induction todo with
  | nil => intro rows nm h; exact h
  | cons hd rest ih =>
    intro rows nm h
    obtain ⟨i, m⟩ := hd
    exact ih _ nm (upsertCategory_presence uid rows m _ nm h)

theorem upsertCategories_presence (uid : String) :
    ∀ (todo : List (Nat × String)) (rows : List CatRow) (n : String),
      (todo.map Prod.snd).contains n = true →
      ∃ r ∈ upsertCategories uid rows todo, r.userId = uid ∧ r.name = n := by
  intro todo
  induction todo with
  | nil => intro rows n hc; simp at hc
  | cons hd rest ih =>
    intro rows n hc
    obtain ⟨i, m⟩ := hd
    by_cases hrest : (rest.map Prod.snd).contains n = true
    · exact ih _ n hrest
    · have hm : n = m := by
        simp only [List.map_cons, List.contains_cons, Bool.or_eq_true, beq_iff_eq] at hc
        rcases hc with h | h
        · exact h
        · exact absurd h hrest
      subst hm
      apply upsertCategories_presence_step uid rest _ n
      rcases upsertCategory_self uid rows n ((i : Int) + 1) with ⟨r, hr, h1, h2, -⟩
      exact ⟨r, hr, h1, h2⟩

theorem upsertCategory_map_form (uid : String) (rows : List CatRow) (n : String) (p : Int)
    (h : ∃ r ∈ rows, r.userId = uid ∧ r.name = n) :
    upsertCategory uid rows n p =
      rows.map fun r =>
        if r.userId == uid && r.name == n then { r with position := p } else r := by
  unfold upsertCategory
  rw [if_pos]
  rcases h with ⟨r, hr, h1, h2⟩
  rw [List.any_eq_true]
  exact ⟨r, hr, by simp [h1, h2]⟩

theorem upsertCategories_map_form (uid : String) :
    ∀ (todo : List (Nat × String)) (rows : List CatRow),
      (∀ n, (todo.map Prod.snd).contains n = true →
        ∃ r ∈ rows, r.userId = uid ∧ r.name = n) →
      upsertCategories uid rows todo =
        rows.map fun r =>
          if r.userId == uid && (todo.map Prod.snd).contains r.name then
            { r with position := lastPos todo r.name }
          else r := by
  intro todo
  induction todo with
  | nil =>
    intro rows _
    show rows = _
    simp
  | cons hd rest ih =>
    intro rows hpres
    obtain ⟨i, m⟩ := hd
    have hm : ∃ r ∈ rows, r.userId = uid ∧ r.name = m :=
      hpres m (by simp)
    show upsertCategories uid (upsertCategory uid rows m ((i : Int) + 1)) rest = _
    rw [upsertCategory_map_form uid rows m ((i : Int) + 1) hm]
    have hpres' : ∀ n, (rest.map Prod.snd).contains n = true →
        ∃ r ∈ rows.map fun r =>
          if r.userId == uid && r.name == m then { r with position := (i : Int) + 1 } else r,
          r.userId = uid ∧ r.name = n := by
      intro n hn
      have hn' : ((((i, m) :: rest).map Prod.snd).contains n) = true := by
        simp only [List.map_cons, List.contains_cons, Bool.or_eq_true]
        exact Or.inr hn
      rcases hpres n hn' with ⟨r, hr, h1, h2⟩
      refine ⟨_, List.mem_map.mpr ⟨r, hr, rfl⟩, ?_⟩
      split_ifs <;> exact ⟨h1, h2⟩
    rw [ih _ hpres', List.map_map]
    apply List.map_congr_left
    intro r _
    simp only [Function.comp_apply]
    by_cases hu : (r.userId == uid) = true
    · by_cases hrm : (r.name == m) = true
      · by_cases hrest : (rest.map Prod.snd).contains r.name = true
        · simp only [hu, hrm, Bool.and_self, if_pos, Bool.true_and, if_true, hrest]
          have h2 : lastPos ((i, m) :: rest) r.name = lastPos rest r.name := by
            rw [lastPos, if_pos hrest]
          simp only [List.map_cons, List.contains_cons, hrest, Bool.or_true, Bool.and_true, hu,
            if_true, h2]
        · simp only [hu, hrm, Bool.true_and, if_pos, hrest, Bool.false_eq_true, if_false,
            List.map_cons, List.contains_cons, Bool.or_false]
          have hrm' : r.name = m := by simpa using hrm
          have h2 : lastPos ((i, m) :: rest) r.name = (i : Int) + 1 := by
            rw [lastPos, if_neg (by rw [hrm']; rw [hrm'] at hrest; exact hrest),
              if_pos hrm'.symm]
          rw [hrm'] at h2
          simp [hrm', h2]
      · by_cases hrest : (rest.map Prod.snd).contains r.name = true
        · have h2 : lastPos ((i, m) :: rest) r.name = lastPos rest r.name := by
            rw [lastPos, if_pos hrest]
          simp only [hu, hrm, Bool.and_false, Bool.false_eq_true, if_false, Bool.true_and,
            hrest, if_true, List.map_cons, List.contains_cons, Bool.or_true, h2]
        · have hmr : (m == r.name) = false := by
            rcases Bool.dichotomy (m == r.name) with h | h
            · exact h
            · have hname : r.name = m := (beq_iff_eq.mp h).symm
              rw [hname] at hrm
              simp at hrm
          have hrmf : (r.name == m) = false := by simpa using hrm
          have hnm : r.name ∉ rest.map Prod.snd := by simpa using hrest
          have hne : r.name ≠ m := by simpa using hrmf
          simp [hu, hrmf, hnm, hne]
    · simp only [hu, Bool.false_and, Bool.false_eq_true, if_false]

theorem lastPos_enumFrom (n : String) :
    ∀ (L : List String) (i : Nat), L.Nodup → n ∈ L →
      lastPos (L.enumFrom i) n = (i : Int) + (L.indexOf n : Int) + 1 := by
  intro L
  induction L with
  | nil =>
    intro i _ h
    simp at h
  | cons a l ih =>
    intro i hnd hmem
    rw [List.enumFrom_cons, lastPos]
    by_cases hl : n ∈ l
    · have hcont : ((List.enumFrom (i + 1) l).map Prod.snd).contains n = true := by
        rw [List.enumFrom_map_snd]
        exact List.elem_eq_true_of_mem hl
      rw [if_pos hcont, ih (i + 1) (List.nodup_cons.mp hnd).2 hl]
      have hne : a ≠ n := by
        intro h
        exact (List.nodup_cons.mp hnd).1 (h ▸ hl)
      rw [List.indexOf_cons_ne _ hne]
      push_cast
      ring
    · have hna : n = a := by
        rcases List.mem_cons.mp hmem with h | h
        · exact h
        · exact absurd h hl
      subst hna
      have hcont : ((List.enumFrom (i + 1) l).map Prod.snd).contains n = false := by
        rw [List.enumFrom_map_snd]
        exact Bool.eq_false_iff.mpr (fun hc => hl (List.mem_of_elem_eq_true hc))
      have hno : ¬((List.enumFrom (i + 1) l).map Prod.snd).contains n = true := by
        simpa [List.enumFrom_map_snd] using hl
      rw [if_neg hno, if_pos rfl, List.indexOf_cons_self]
      push_cast
      ring

theorem updateCategoriesTable_spec (uid : String) (L : List String) (db : DB)
    (h1 : L ≠ []) (h2 : ∀ c ∈ L, ¬ goTrimSpace c = "") :
    (updateCategoriesTable uid L db).1 = .ok () ∧
    (updateCategoriesTable uid L db).2.categories =
      deleteAbsentCategories uid L (upsertCategories uid db.categories L.enum) ∧
    (updateCategoriesTable uid L db).2.expenses = db.expenses ∧
    (updateCategoriesTable uid L db).2.recurring = db.recurring ∧
    (updateCategoriesTable uid L db).2.userConfig = db.userConfig ∧
    (∀ r ∈ (updateCategoriesTable uid L db).2.categories, r.userId = uid →
      r.name ∈ L ∧ r.position = lastPos L.enum r.name) ∧
    (∀ n ∈ L, ∃ r ∈ (updateCategoriesTable uid L db).2.categories,
      r.userId = uid ∧ r.name = n ∧ r.position = lastPos L.enum n) := by
  have hany : ¬(L.any (fun c => goTrimSpace c == "")) = true := by
    intro hc
    rcases List.any_eq_true.mp hc with ⟨c, hcm, hce⟩
    exact h2 c hcm (beq_iff_eq.mp hce)
  have hres : updateCategoriesTable uid L db = (.ok (), { db with
      categories := deleteAbsentCategories uid L
        (upsertCategories uid db.categories L.enum) }) := by
    unfold updateCategoriesTable
    rw [if_neg h1, if_neg hany]
  rw [hres]
  refine ⟨rfl, rfl, rfl, rfl, rfl, ?_, ?_⟩
  · intro r hr hru
    have hr1 : r ∈ upsertCategories uid db.categories L.enum := List.mem_of_mem_filter hr
    have hr2 := List.of_mem_filter hr
    have hcont : L.contains r.name = true := by
      rcases Bool.dichotomy (L.contains r.name) with h | h
      · rw [hru, h] at hr2
        simp at hr2
      · exact h
    have hmem : r.name ∈ L := List.mem_of_elem_eq_true hcont
    refine ⟨hmem, ?_⟩
    apply upsertCategories_pos uid L.enum db.categories r hr1 hru
    rw [List.enum_map_snd]
    exact hcont
  · intro n hn
    rcases upsertCategories_presence uid L.enum db.categories n
      (by rw [List.enum_map_snd]; exact List.elem_eq_true_of_mem hn) with ⟨r, hr, hru, hrn⟩
    have hpos := upsertCategories_pos uid L.enum db.categories r hr hru
      (by rw [List.enum_map_snd, hrn]; exact List.elem_eq_true_of_mem hn)
    refine ⟨r, ?_, hru, hrn, by rw [← hrn]; exact hpos⟩
    apply List.mem_filter.mpr
    refine ⟨hr, ?_⟩
    rw [hru, hrn]
    simp [hn]

/-- C6 counterexample: with L1 = ["A"] and L2 = ["A", "A"] (a duplicated
name), the final stored position of "A" is 2, not its 0-based index in L2
plus 1 (which is 1): the upsert loop leaves the position of the LAST
occurrence. -/
theorem C6_reconcile_counterexample :
    (updateCategoriesTable "T" ["A"] wDB).1 = .ok () ∧
    (updateCategoriesTable "T" ["A", "A"]
      (updateCategoriesTable "T" ["A"] wDB).2).1 = .ok () ∧
    (updateCategoriesTable "T" ["A", "A"]
      (updateCategoriesTable "T" ["A"] wDB).2).2.categories = [⟨"T", "A", 2⟩] ∧
    ((["A", "A"].indexOf "A" : Int) + 1 = 1 ∧ (2 : Int) ≠ 1) := by
  refine ⟨by rfl, by rfl, by decide, by decide, by decide⟩

/-- C6 (amended): for non-empty sanitized name lists L1 and L2 where L2
has no duplicate names, reconciling L1 and then L2 leaves the tenant's
stored categories exactly the names of L2, each positioned at its 0-based
index in L2 plus 1, with every other name (including L1's names absent
from L2) deleted. -/
theorem C6_reconcile_replaces (uid : String) (L1 L2 : List String) (db : DB)
    (h1a : L1 ≠ []) (h1b : ∀ c ∈ L1, ¬ goTrimSpace c = "")
    (h2a : L2 ≠ []) (h2b : ∀ c ∈ L2, ¬ goTrimSpace c = "") (h2c : L2.Nodup) :
    (updateCategoriesTable uid L1 db).1 = .ok () ∧
    (updateCategoriesTable uid L2 (updateCategoriesTable uid L1 db).2).1 = .ok () ∧
    (∀ r ∈ (updateCategoriesTable uid L2
        (updateCategoriesTable uid L1 db).2).2.categories,
      r.userId = uid → r.name ∈ L2 ∧ r.position = (L2.indexOf r.name : Int) + 1) ∧
    (∀ n ∈ L2, ∃ r ∈ (updateCategoriesTable uid L2
        (updateCategoriesTable uid L1 db).2).2.categories,
      r.userId = uid ∧ r.name = n ∧ r.position = (L2.indexOf n : Int) + 1) := by
  obtain ⟨hok1, -, -, -, -, -, -⟩ := updateCategoriesTable_spec uid L1 db h1a h1b
  obtain ⟨hok2, -, -, -, -, hrow, hex⟩ :=
    updateCategoriesTable_spec uid L2 (updateCategoriesTable uid L1 db).2 h2a h2b
  have hlp : ∀ n ∈ L2, lastPos L2.enum n = (L2.indexOf n : Int) + 1 := by
    intro n hn
    have := lastPos_enumFrom n L2 0 h2c hn
    show lastPos (L2.enumFrom 0) n = _
    rw [this]
    ring
  refine ⟨hok1, hok2, ?_, ?_⟩
  · intro r hr hru
    obtain ⟨hm, hp⟩ := hrow r hr hru
    exact ⟨hm, by rw [hp, hlp r.name hm]⟩
  · intro n hn
    obtain ⟨r, hr, h1, h2, h3⟩ := hex n hn
    exact ⟨r, hr, h1, h2, by rw [h3, hlp n hn]⟩

/-- Witness for C6 (amended): the spec scenario — Food, Travel then
Travel, Food, Rent. -/
theorem C6_reconcile_replaces_witness :
    (["Food", "Travel"] : List String) ≠ [] ∧
    (["Travel", "Food", "Rent"] : List String) ≠ [] ∧
    (["Travel", "Food", "Rent"] : List String).Nodup ∧
    (updateCategoriesTable "T" ["Food", "Travel"] wDB).1 = .ok () ∧
    (updateCategoriesTable "T" ["Travel", "Food", "Rent"]
      (updateCategoriesTable "T" ["Food", "Travel"] wDB).2).1 = .ok () ∧
    (updateCategoriesTable "T" ["Travel", "Food", "Rent"]
      (updateCategoriesTable "T" ["Food", "Travel"] wDB).2).2.categories =
      [⟨"T", "Food", 2⟩, ⟨"T", "Travel", 1⟩, ⟨"T", "Rent", 3⟩] := by
  have h := C6_reconcile_replaces "T" ["Food", "Travel"] ["Travel", "Food", "Rent"] wDB
    (by decide) (by decide) (by decide) (by decide) (by decide)
  exact ⟨by decide, by decide, by decide, h.1, h.2.1, by decide⟩

/-- C7: reconciliation is idempotent — the second application of the same
sanitized non-empty list succeeds and returns exactly the state the first
application produced. -/
theorem C7_reconcile_idempotent (uid : String) (L : List String) (db : DB)
    (h1 : L ≠ []) (h2 : ∀ c ∈ L, ¬ goTrimSpace c = "") :
    (updateCategoriesTable uid L db).1 = .ok () ∧
    updateCategoriesTable uid L (updateCategoriesTable uid L db).2 =
      (.ok (), (updateCategoriesTable uid L db).2) := by
  obtain ⟨hok1, hcats, -, -, -, hrow, hex⟩ := updateCategoriesTable_spec uid L db h1 h2
  have hany : ¬(L.any (fun c => goTrimSpace c == "")) = true := by
    intro hc
    rcases List.any_eq_true.mp hc with ⟨c, hcm, hce⟩
    exact h2 c hcm (beq_iff_eq.mp hce)
  refine ⟨hok1, ?_⟩
  set db2 := (updateCategoriesTable uid L db).2 with hdb2
  unfold updateCategoriesTable
  rw [if_neg h1, if_neg hany]
  have hpres : ∀ n, ((L.enum.map Prod.snd).contains n) = true →
      ∃ r ∈ db2.categories,
        r.userId = uid ∧ r.name = n := by
    intro n hn
    rw [List.enum_map_snd] at hn
    obtain ⟨r, hr, ha, hb, -⟩ := hex n (List.mem_of_elem_eq_true hn)
    exact ⟨r, hr, ha, hb⟩
  rw [upsertCategories_map_form uid L.enum _ hpres]
  have hmapid : (db2.categories.map fun r =>
      if (r.userId == uid && (L.enum.map Prod.snd).contains r.name) = true then
        { r with position := lastPos L.enum r.name }
      else r) = db2.categories := by
    have hcg : ∀ r ∈ db2.categories,
        (if (r.userId == uid && (L.enum.map Prod.snd).contains r.name) = true then
          { r with position := lastPos L.enum r.name }
        else r) = id r := by
      intro r hr
      by_cases hc : (r.userId == uid && (L.enum.map Prod.snd).contains r.name) = true
      · rw [if_pos hc]
        have hru : r.userId = uid := by
          simp only [Bool.and_eq_true, beq_iff_eq] at hc
          exact hc.1
        obtain ⟨-, hp⟩ := hrow r hr hru
        show ({ r with position := lastPos L.enum r.name } : CatRow) = r
        rw [← hp]
      · rw [if_neg hc]
        rfl
    rw [List.map_congr_left hcg, List.map_id]
  rw [hmapid]
  have hdel : deleteAbsentCategories uid L db2.categories = db2.categories := by
    unfold deleteAbsentCategories
    rw [List.filter_eq_self]
    intro r hr
    by_cases hru : r.userId = uid
    · obtain ⟨hm, -⟩ := hrow r hr hru
      simp [hm]
    · simp only [Bool.not_eq_eq_eq_not, Bool.not_true, Bool.and_eq_false_imp]
      intro hx
      exact absurd (beq_iff_eq.mp hx) hru
  rw [hdel]

/-- Witness for C7: reconciling Food, Travel twice. -/
theorem C7_reconcile_idempotent_witness :
    (["Food", "Travel"] : List String) ≠ [] ∧
    (updateCategoriesTable "T" ["Food", "Travel"] wDB).1 = .ok () ∧
    updateCategoriesTable "T" ["Food", "Travel"]
        (updateCategoriesTable "T" ["Food", "Travel"] wDB).2 =
      (.ok (), (updateCategoriesTable "T" ["Food", "Travel"] wDB).2) ∧
    (updateCategoriesTable "T" ["Food", "Travel"] wDB).2.categories =
      [⟨"T", "Food", 1⟩, ⟨"T", "Travel", 2⟩] := by
  have h := C7_reconcile_idempotent "T" ["Food", "Travel"] wDB (by decide) (by decide)
  exact ⟨by decide, h.1, h.2, by decide⟩

/-! ## FutureOnly mode lemmas -/

theorem ffLoop_guard_false (i : String) (occ : Int) (today cur : GoTime) (budget : Int)
    (f : Nat) (hg : ¬(timeBefore cur today && (occ == 0 || decide (0 < budget))) = true) :
    ffLoop i occ today f cur budget = .finished cur budget := by
  cases f <;> (rw [ffLoop]; rw [if_neg hg])

theorem ffLoop_run (i : String) (occ : Int) (today start : GoTime)
    (hv : validInterval i) (hs : ValidTime start) (hocc : 1 ≤ occ)
    (m : Nat) (hm1 : ∀ j < m, timeBefore ((stepFn i)^[j] start) today = true)
    (hm2 : timeBefore ((stepFn i)^[m] start) today = false) :
    ∀ (k j f : Nat), j + k = min m occ.toNat →
      ffLoop i occ today (k + f) ((stepFn i)^[j] start) (occ - j) =
        .finished ((stepFn i)^[min m occ.toNat] start)
          (occ - ((min m occ.toNat : Nat) : Int)) := by
  intro k
  induction k with
  | zero =>
    intro j f hj
    simp only [Nat.add_zero] at hj
    subst hj
    rw [Nat.zero_add]
    apply ffLoop_guard_false
    by_cases hm : m ≤ occ.toNat
    · rw [min_eq_left hm]
      simp [hm2]
    · have hminr : min m occ.toNat = occ.toNat := min_eq_right (by omega)
      rw [hminr]
      have hocc0 : ¬(occ == 0) = true := by
        simp only [beq_iff_eq]
        omega
      have hbud : ¬(0 < occ - (occ.toNat : Int)) := by omega
      simp [hocc0, hbud]
  | succ n ih =>
    intro j f hj
    have hjm : j < m := by omega
    have hjo : j < occ.toNat := by omega
    have hguard : (timeBefore ((stepFn i)^[j] start) today &&
        (occ == 0 || decide (0 < occ - (j : Int)))) = true := by
      rw [hm1 j hjm]
      simp only [Bool.true_and, Bool.or_eq_true, decide_eq_true_iff]
      right
      omega
    have hfuel : n + 1 + f = (n + f) + 1 := by omega
    rw [hfuel, ffLoop, if_pos hguard, stepInterval_eq_stepFn i _ hv]
    have hnext : stepFn i ((stepFn i)^[j] start) = (stepFn i)^[j + 1] start :=
      (Function.iterate_succ_apply' (stepFn i) j start).symm
    have hbud : (if 0 < occ then occ - (j : Int) - 1 else occ - (j : Int)) =
        occ - ((j + 1 : Nat) : Int) := by
      rw [if_pos (by omega)]
      push_cast
      ring
    simp only [hnext, hbud]
    exact ih (j + 1) f (by omega)

/-- C3: in FutureOnly mode generation first walks the date sequence from
the start date, spending one unit of the occurrence budget per date
strictly before now; with m the number of leading dates strictly before
now, the result is empty when the budget (= occurrences) is exhausted
first (occurrences ≤ m), and otherwise emits exactly the remaining
occurrences - m instances starting at the first date on or after now. -/
theorem C3_futureOnly_fast_forward (uid : String) (re : RecurringExpense)
    (today : GoTime) (seed : Nat)
    (hval : re.Validate = .ok re) (hstart : ValidTime re.startDate)
    (m : Nat)
    (hm1 : ∀ j < m, timeBefore ((stepFn re.interval)^[j] re.startDate) today = true)
    (hm2 : timeBefore ((stepFn re.interval)^[m] re.startDate) today = false) :
    let gen := generateExpensesFromRecurring uid re true today seed
    (re.occurrences.toNat ≤ m → gen = []) ∧
    (m < re.occurrences.toNat →
      gen.length = re.occurrences.toNat - m ∧
      (∀ (k : Nat) (hk : k < gen.length),
        (gen.get ⟨k, hk⟩).date = (stepFn re.interval)^[m + k] re.startDate)) := by
  intro gen
  obtain ⟨hocc, hv, -⟩ := Validate_ok_facts re re hval
  have hminle : min m re.occurrences.toNat ≤ ffFuel re.occurrences today re.startDate := by
    unfold ffFuel
    omega
  have hrun := ffLoop_run re.interval re.occurrences today re.startDate hv hstart
    (by omega) m hm1 hm2 (min m re.occurrences.toNat) 0
    (ffFuel re.occurrences today re.startDate - min m re.occurrences.toNat) (by omega)
  rw [Function.iterate_zero_apply] at hrun
  have hfeq : min m re.occurrences.toNat +
      (ffFuel re.occurrences today re.startDate - min m re.occurrences.toNat) =
      ffFuel re.occurrences today re.startDate := by omega
  rw [hfeq] at hrun
  have hsub : (re.occurrences - ((0 : Nat) : Int)) = re.occurrences := by omega
  rw [hsub] at hrun
  have hgen : gen = genLoop uid re seed
      (re.occurrences - ((min m re.occurrences.toNat : Nat) : Int)).toNat
      ((stepFn re.interval)^[min m re.occurrences.toNat] re.startDate) := by
    show generateExpensesFromRecurring uid re true today seed = _
    unfold generateExpensesFromRecurring
    rw [if_pos rfl, hrun]
  constructor
  · intro hle
    rw [min_eq_right hle] at hgen
    have hz : (re.occurrences - (re.occurrences.toNat : Int)).toNat = 0 := by omega
    rw [hz] at hgen
    rw [hgen, genLoop]
  · intro hlt
    rw [min_eq_left (by omega)] at hgen
    have hcount : (re.occurrences - (m : Int)).toNat = re.occurrences.toNat - m := by
      omega
    rw [hcount] at hgen
    constructor
    · rw [hgen]
      exact genLoop_length uid re hv _ seed _
    · intro k hk
      rw [hgen] at hk
      have hget := genLoop_eq_map uid re hv (re.occurrences.toNat - m) seed
        ((stepFn re.interval)^[m] re.startDate)
      have hit : (stepFn re.interval)^[m + k] re.startDate =
          (stepFn re.interval)^[k] ((stepFn re.interval)^[m] re.startDate) := by
        rw [Nat.add_comm, Function.iterate_add_apply]
      simp only [hgen, hget, List.get_eq_getElem, List.getElem_map, List.getElem_range, hit]

/-- Witness for C3: the scenario rule fast-forwarded past 2026-01-15
spends one budget unit on 2026-01-01 and emits the remaining two
instances, dated 2026-02-01 and 2026-03-01. -/
theorem C3_futureOnly_fast_forward_witness :
    wRule.Validate = .ok wRule ∧ ValidTime wRule.startDate ∧
    (∀ j < 1, timeBefore ((stepFn wRule.interval)^[j] wRule.startDate) wToday = true) ∧
    timeBefore ((stepFn wRule.interval)^[1] wRule.startDate) wToday = false ∧
    (generateExpensesFromRecurring "T" wRule true wToday 0).length = 3 - 1 ∧
    (generateExpensesFromRecurring "T" wRule true wToday 0).map (fun e => e.date) =
      [⟨2026, 2, 1, 0⟩, ⟨2026, 3, 1, 0⟩] := by
  have h := C3_futureOnly_fast_forward "T" wRule wToday 0 (by rfl) (by decide) 1
    (by decide) (by decide)
  refine ⟨by rfl, by decide, by decide, by decide, ?_, by decide⟩
  have h2 := (h.2 (by decide)).1
  simpa using h2

/-! ## Tenant isolation -/

theorem find?_filter_keep {α : Type} (p q : α → Bool) (l : List α)
    (h : ∀ r, q r = true → p r = true) :
    (l.filter p).find? q = l.find? q := by
  induction l with
  | nil => rfl
  | cons a l ih =>
    rw [List.filter_cons]
    by_cases hp : p a = true
    · rw [if_pos hp, List.find?_cons, List.find?_cons]
      cases hq : q a
      · exact ih
      · rfl
    · rw [if_neg hp, List.find?_cons]
      cases hq : q a
      · exact ih
      · exact absurd (h a hq) hp

theorem countP_filter_keep {α : Type} (p q : α → Bool) (l : List α)
    (h : ∀ r, q r = true → p r = true) :
    (l.filter p).countP q = l.countP q := by
  rw [List.countP_filter]
  apply List.countP_congr
  intro a _
  cases hq : q a
  · simp
  · simp [h a hq]

theorem any_filter_keep {α : Type} (p q : α → Bool) (l : List α)
    (h : ∀ r, q r = true → p r = true) :
    (l.filter p).any q = l.any q := by
  induction l with
  | nil => rfl
  | cons a l ih =>
    rw [List.filter_cons]
    by_cases hp : p a = true
    · rw [if_pos hp, List.any_cons, List.any_cons, ih]
    · rw [if_neg hp, List.any_cons]
      have hq : q a = false := by
        cases hqa : q a
        · rfl
        · exact absurd (h a hqa) hp
      rw [hq, ih]
      rfl

theorem filter_filter_keep {α : Type} (p q : α → Bool) (l : List α)
    (h : ∀ r, q r = true → p r = true) :
    (l.filter p).filter q = l.filter q := by
  rw [List.filter_filter]
  apply List.filter_congr
  intro a _
  cases hq : q a
  · simp
  · simp [h a hq]

theorem map_guard_filter {α : Type} (g : α → α) (p : α → Bool) (l : List α)
    (h1 : ∀ r, p r = true → g r = r) (h2 : ∀ r, p (g r) = p r) :
    (l.map g).filter p = l.filter p := by
  induction l with
  | nil => rfl
  | cons a l ih =>
    rw [List.map_cons, List.filter_cons, List.filter_cons, h2 a]
    by_cases hp : p a = true
    · rw [if_pos hp, if_pos hp, h1 a hp, ih]
    · rw [if_neg hp, if_neg hp, ih]

theorem map_filter_comm {α : Type} (g : α → α) (p : α → Bool) (l : List α)
    (h : ∀ r, p (g r) = p r) :
    (l.map g).filter p = (l.filter p).map g := by
  induction l with
  | nil => rfl
  | cons a l ih =>
    rw [List.map_cons, List.filter_cons, List.filter_cons, h a]
    by_cases hp : p a = true
    · rw [if_pos hp, if_pos hp, List.map_cons, ih]
    · rw [if_neg hp, if_neg hp, ih]

theorem filter_swap {α : Type} (p q : α → Bool) (l : List α) :
    (l.filter p).filter q = (l.filter q).filter p := by
  rw [List.filter_filter, List.filter_filter]
  apply List.filter_congr
  intro a _
  rw [Bool.and_comm]

theorem filter_append_none {α : Type} (p : α → Bool) (l1 l2 : List α)
    (h : ∀ r ∈ l2, p r = false) :
    (l1 ++ l2).filter p = l1.filter p := by
  have h2 : l2.filter p = [] := by
    apply List.filter_eq_nil_iff.mpr
    intro a ha
    simp [h a ha]
  rw [List.filter_append, h2, List.append_nil]

theorem filter_append_all {α : Type} (p : α → Bool) (l1 l2 : List α)
    (h : ∀ r ∈ l2, p r = true) :
    (l1 ++ l2).filter p = l1.filter p ++ l2 := by
  rw [List.filter_append, List.filter_eq_self.mpr h]

theorem restrict_eq_iff (A : String) (db1 db2 : DB) :
    restrict A db1 = restrict A db2 ↔
      (db1.expenses.filter (fun e => e.userId == A) =
        db2.expenses.filter (fun e => e.userId == A) ∧
      db1.recurring.filter (fun r => r.userId == A) =
        db2.recurring.filter (fun r => r.userId == A) ∧
      db1.categories.filter (fun c => c.userId == A) =
        db2.categories.filter (fun c => c.userId == A) ∧
      db1.userConfig.filter (fun c => c.userId == A) =
        db2.userConfig.filter (fun c => c.userId == A)) := by
  unfold restrict
  rw [DB.mk.injEq]

theorem and_scope {α : Type} (tid : α → String) (A : String) (p : α → Bool) :
    ∀ r, (tid r == A && p r) = true → (tid r == A) = true :=
  fun r h => ((Bool.and_eq_true _ _).mp h).1

theorem find?_scoped {α : Type} (tid : α → String) (A : String) (p : α → Bool)
    (l1 l2 : List α)
    (hl : l1.filter (fun r => tid r == A) = l2.filter (fun r => tid r == A)) :
    l1.find? (fun r => tid r == A && p r) = l2.find? (fun r => tid r == A && p r) := by
  rw [← find?_filter_keep (fun r => tid r == A) _ l1 (and_scope tid A p), hl,
    find?_filter_keep (fun r => tid r == A) _ l2 (and_scope tid A p)]

theorem find?_scoped0 {α : Type} (tid : α → String) (A : String) (l1 l2 : List α)
    (hl : l1.filter (fun r => tid r == A) = l2.filter (fun r => tid r == A)) :
    l1.find? (fun r => tid r == A) = l2.find? (fun r => tid r == A) := by
  rw [← find?_filter_keep (fun r => tid r == A) _ l1 (fun _ h => h), hl,
    find?_filter_keep (fun r => tid r == A) _ l2 (fun _ h => h)]

theorem countP_scoped {α : Type} (tid : α → String) (A : String) (p : α → Bool)
    (l1 l2 : List α)
    (hl : l1.filter (fun r => tid r == A) = l2.filter (fun r => tid r == A)) :
    l1.countP (fun r => tid r == A && p r) = l2.countP (fun r => tid r == A && p r) := by
  rw [← countP_filter_keep (fun r => tid r == A) _ l1 (and_scope tid A p), hl,
    countP_filter_keep (fun r => tid r == A) _ l2 (and_scope tid A p)]

theorem any_scoped0 {α : Type} (tid : α → String) (A : String) (l1 l2 : List α)
    (hl : l1.filter (fun r => tid r == A) = l2.filter (fun r => tid r == A)) :
    l1.any (fun r => tid r == A) = l2.any (fun r => tid r == A) := by
  rw [← any_filter_keep (fun r => tid r == A) _ l1 (fun _ h => h), hl,
    any_filter_keep (fun r => tid r == A) _ l2 (fun _ h => h)]

theorem any_scoped {α : Type} (tid : α → String) (A : String) (p : α → Bool)
    (l1 l2 : List α)
    (hl : l1.filter (fun r => tid r == A) = l2.filter (fun r => tid r == A)) :
    l1.any (fun r => tid r == A && p r) = l2.any (fun r => tid r == A && p r) := by
  rw [← any_filter_keep (fun r => tid r == A) _ l1 (and_scope tid A p), hl,
    any_filter_keep (fun r => tid r == A) _ l2 (and_scope tid A p)]

theorem other_keeps {α : Type} (tid : α → String) {A B : String} (hBA : B ≠ A)
    (p : α → Bool) :
    ∀ r, (tid r == B) = true → (!(tid r == A && p r)) = true := by
  intro r h
  rw [beq_iff_eq] at h
  have hfa : (tid r == A) = false := by
    rw [h]
    exact beq_eq_false_iff_ne.mpr hBA
  rw [hfa, Bool.false_and, Bool.not_false]

theorem map_guard_frame {α : Type} (tid : α → String) {A B : String} (hBA : B ≠ A)
    (q : α → Bool) (f : α → α) (hq : ∀ r, q r = true → (tid r == A) = true)
    (hf : ∀ r, tid (f r) = tid r) (l : List α) :
    ((l.map fun r => if q r then f r else r).filter fun r => tid r == B) =
      l.filter fun r => tid r == B := by
  apply map_guard_filter
  · intro r hr
    rw [if_neg]
    intro hqr
    have := hq r hqr
    rw [beq_iff_eq] at hr this
    exact hBA (hr ▸ this ▸ rfl)
  · intro r
    by_cases hqr : q r = true
    · rw [if_pos hqr, hf r]
    · rw [if_neg hqr]

theorem map_guard_comm {α : Type} (tid : α → String) (A : String)
    (q : α → Bool) (f : α → α) (hf : ∀ r, tid (f r) = tid r) (l : List α) :
    ((l.map fun r => if q r then f r else r).filter fun r => tid r == A) =
      (l.filter fun r => tid r == A).map fun r => if q r then f r else r := by
  apply map_filter_comm
  intro r
  by_cases hqr : q r = true
  · rw [if_pos hqr, hf r]
  · rw [if_neg hqr]

theorem filter_guard_frame {α : Type} (tid : α → String) {A B : String} (hBA : B ≠ A)
    (p : α → Bool) (l : List α) :
    ((l.filter fun r => !(tid r == A && p r)).filter fun r => tid r == B) =
      l.filter fun r => tid r == B := by
  exact filter_filter_keep _ _ l (other_keeps tid hBA p)

theorem append_one_frame {α : Type} (tid : α → String) {A B : String} (hBA : B ≠ A)
    (l : List α) (x : α) (hx : tid x = A) :
    ((l ++ [x]).filter fun r => tid r == B) = l.filter fun r => tid r == B := by
  apply filter_append_none
  intro r hr
  rw [List.mem_singleton] at hr
  subst hr
  rw [hx]
  exact beq_eq_false_iff_ne.mpr (Ne.symm hBA)

theorem append_one_all {α : Type} (tid : α → String) (A : String)
    (l : List α) (x : α) (hx : tid x = A) :
    ((l ++ [x]).filter fun r => tid r == A) = (l.filter fun r => tid r == A) ++ [x] := by
  apply filter_append_all
  intro r hr
  rw [List.mem_singleton] at hr
  subst hr
  rw [hx, beq_self_eq_true]

theorem genLoop_userId (uid : String) (re : RecurringExpense) :
    ∀ (n seed : Nat) (cur : GoTime) (e : Expense),
      e ∈ genLoop uid re seed n cur → e.userId = uid := by
  intro n
  induction n with
  | zero => intro seed cur e he; simp [genLoop] at he
  | succ n ih =>
    intro seed cur e he
    rw [genLoop, List.mem_cons] at he
    rcases he with he | he
    · subst he; rfl
    · cases hstep : stepInterval re.interval cur with
      | some next => rw [hstep] at he; exact ih (seed + 1) next e he
      | none => rw [hstep] at he; simp at he

theorem generate_userId (uid : String) (re : RecurringExpense) (ft : Bool)
    (today : GoTime) (seed : Nat) (e : Expense)
    (he : e ∈ generateExpensesFromRecurring uid re ft today seed) : e.userId = uid := by
  unfold generateExpensesFromRecurring at he
  by_cases hft : ft = true
  · rw [if_pos hft] at he
    cases hff : ffLoop re.interval re.occurrences today
        (ffFuel re.occurrences today re.startDate) re.startDate re.occurrences with
    | finished cur budget =>
      rw [hff] at he
      exact genLoop_userId uid re _ _ _ e he
    | earlyReturn => rw [hff] at he; simp at he
    | outOfFuel => rw [hff] at he; simp at he
  · rw [if_neg hft] at he
    exact genLoop_userId uid re _ _ _ e he

theorem append_gen_frame {A B : String} (hBA : B ≠ A) (l : List Expense)
    (re : RecurringExpense) (ft : Bool) (today : GoTime) (seed : Nat) :
    ((l ++ generateExpensesFromRecurring A re ft today seed).filter
        fun r => r.userId == B) = l.filter fun r => r.userId == B := by
  apply filter_append_none
  intro r hr
  rw [generate_userId A re ft today seed r hr]
  exact beq_eq_false_iff_ne.mpr (Ne.symm hBA)

theorem append_gen_all (A : String) (l : List Expense)
    (re : RecurringExpense) (ft : Bool) (today : GoTime) (seed : Nat) :
    ((l ++ generateExpensesFromRecurring A re ft today seed).filter
        fun r => r.userId == A) =
      (l.filter fun r => r.userId == A) ++
        generateExpensesFromRecurring A re ft today seed := by
  apply filter_append_all
  intro r hr
  rw [generate_userId A re ft today seed r hr, beq_self_eq_true]

theorem getOrCreateUserConfig_isolated :
    Isolated (fun A db => getOrCreateUserConfig A db) := by
  intro A B db1 db2 hBA hA
  obtain ⟨hE, hR, hC, hU⟩ := (restrict_eq_iff A db1 db2).mp hA
  have hfind : db1.userConfig.find? (fun r => r.userId == A) =
      db2.userConfig.find? (fun r => r.userId == A) :=
    find?_scoped0 ConfigRow.userId A _ _ hU
  simp only [getOrCreateUserConfig]
  cases hf : db2.userConfig.find? (fun r => r.userId == A) with
  | some r =>
    rw [hfind, hf]
    exact ⟨rfl, rfl, hA⟩
  | none =>
    rw [hfind, hf]
    refine ⟨?_, rfl, ?_⟩
    · exact (restrict_eq_iff B _ db1).mpr
        ⟨rfl, rfl, rfl, append_one_frame ConfigRow.userId hBA _ _ rfl⟩
    · refine (restrict_eq_iff A _ _).mpr ⟨hE, hR, hC, ?_⟩
      rw [append_one_all ConfigRow.userId A _ _ rfl,
        append_one_all ConfigRow.userId A _ _ rfl, hU]

theorem GetCurrency_isolated : Isolated (fun A db => GetCurrency A db) := by
  intro A B db1 db2 hBA hA
  obtain ⟨h1, h2, h3⟩ := getOrCreateUserConfig_isolated A B db1 db2 hBA hA
  have hval : ∀ (u : String) (d : DB), GetCurrency u d =
      ((getOrCreateUserConfig u d).1.1, (getOrCreateUserConfig u d).2) := fun _ _ => rfl
  simp only [hval]
  exact ⟨h1, by rw [h2], h3⟩

theorem GetStartDate_isolated : Isolated (fun A db => GetStartDate A db) := by
  intro A B db1 db2 hBA hA
  obtain ⟨h1, h2, h3⟩ := getOrCreateUserConfig_isolated A B db1 db2 hBA hA
  have hval : ∀ (u : String) (d : DB), GetStartDate u d =
      ((getOrCreateUserConfig u d).1.2, (getOrCreateUserConfig u d).2) := fun _ _ => rfl
  simp only [hval]
  exact ⟨h1, by rw [h2], h3⟩

theorem UpdateCurrency_isolated (c : String) :
    Isolated (fun A db => UpdateCurrency A c db) := by
  intro A B db1 db2 hBA hA
  obtain ⟨g1, g2, g3⟩ := getOrCreateUserConfig_isolated A B db1 db2 hBA hA
  simp only at g1 g2 g3
  simp only [UpdateCurrency]
  by_cases hcur : (!(SupportedCurrencies.contains c)) = true
  · rw [if_pos hcur, if_pos hcur]
    exact ⟨rfl, rfl, hA⟩
  · rw [if_neg hcur, if_neg hcur]
    rcases hq1 : getOrCreateUserConfig A db1 with ⟨⟨c1, sd1⟩, db1a⟩
    rcases hq2 : getOrCreateUserConfig A db2 with ⟨⟨c2, sd2⟩, db2a⟩
    rw [hq1] at g1 g2 g3
    rw [hq2] at g2 g3
    simp only at g1 g2 g3 ⊢
    have g2p : c1 = c2 ∧ sd1 = sd2 := by
      have := g2
      simp only [Prod.mk.injEq] at this
      exact this
    obtain ⟨g2c, g2d⟩ := g2p
    subst g2c
    subst g2d
    obtain ⟨hE1, hR1, hC1, hU1⟩ := (restrict_eq_iff A db1a db2a).mp g3
    obtain ⟨fE, fR, fC, fU⟩ := (restrict_eq_iff B db1a db1).mp g1
    have hany : db1a.userConfig.any (fun r => r.userId == A) =
        db2a.userConfig.any (fun r => r.userId == A) :=
      any_scoped0 ConfigRow.userId A _ _ hU1
    by_cases hb : db1a.userConfig.any (fun r => r.userId == A) = true
    · have hb2 : db2a.userConfig.any (fun r => r.userId == A) = true := by
        rw [← hany]; exact hb
      rw [if_pos hb, if_pos hb2]
      refine ⟨?_, rfl, ?_⟩
      · exact (restrict_eq_iff B _ db1).mpr ⟨fE, fR, fC,
          (map_guard_frame ConfigRow.userId hBA (fun r => r.userId == A)
            (fun r => { r with currency := c }) (fun _ h => h) (fun _ => rfl)
            db1a.userConfig).trans fU⟩
      · refine (restrict_eq_iff A _ _).mpr ⟨hE1, hR1, hC1, ?_⟩
        rw [map_guard_comm ConfigRow.userId A (fun r => r.userId == A)
            (fun r => { r with currency := c }) (fun _ => rfl),
          map_guard_comm ConfigRow.userId A (fun r => r.userId == A)
            (fun r => { r with currency := c }) (fun _ => rfl), hU1]
    · have hb2 : ¬(db2a.userConfig.any (fun r => r.userId == A) = true) := by
        rw [← hany]; exact hb
      rw [if_neg hb, if_neg hb2]
      refine ⟨?_, rfl, ?_⟩
      · exact (restrict_eq_iff B _ db1).mpr ⟨fE, fR, fC,
          (append_one_frame ConfigRow.userId hBA _ _ rfl).trans fU⟩
      · refine (restrict_eq_iff A _ _).mpr ⟨hE1, hR1, hC1, ?_⟩
        rw [append_one_all ConfigRow.userId A _ _ rfl,
          append_one_all ConfigRow.userId A _ _ rfl, hU1]

theorem UpdateStartDate_isolated (sd : Int) :
    Isolated (fun A db => UpdateStartDate A sd db) := by
  intro A B db1 db2 hBA hA
  obtain ⟨g1, g2, g3⟩ := getOrCreateUserConfig_isolated A B db1 db2 hBA hA
  simp only at g1 g2 g3
  simp only [UpdateStartDate]
  by_cases hrange : sd < 1 ∨ sd > 31
  · rw [if_pos hrange, if_pos hrange]
    exact ⟨rfl, rfl, hA⟩
  · rw [if_neg hrange, if_neg hrange]
    rcases hq1 : getOrCreateUserConfig A db1 with ⟨⟨c1, sd1⟩, db1a⟩
    rcases hq2 : getOrCreateUserConfig A db2 with ⟨⟨c2, sd2⟩, db2a⟩
    rw [hq1] at g1 g2 g3
    rw [hq2] at g2 g3
    simp only at g1 g2 g3 ⊢
    have g2p : c1 = c2 ∧ sd1 = sd2 := by
      have := g2
      simp only [Prod.mk.injEq] at this
      exact this
    obtain ⟨g2c, g2d⟩ := g2p
    subst g2c
    subst g2d
    obtain ⟨hE1, hR1, hC1, hU1⟩ := (restrict_eq_iff A db1a db2a).mp g3
    obtain ⟨fE, fR, fC, fU⟩ := (restrict_eq_iff B db1a db1).mp g1
    have hany : db1a.userConfig.any (fun r => r.userId == A) =
        db2a.userConfig.any (fun r => r.userId == A) :=
      any_scoped0 ConfigRow.userId A _ _ hU1
    by_cases hb : db1a.userConfig.any (fun r => r.userId == A) = true
    · have hb2 : db2a.userConfig.any (fun r => r.userId == A) = true := by
        rw [← hany]; exact hb
      rw [if_pos hb, if_pos hb2]
      refine ⟨?_, rfl, ?_⟩
      · exact (restrict_eq_iff B _ db1).mpr ⟨fE, fR, fC,
          (map_guard_frame ConfigRow.userId hBA (fun r => r.userId == A)
            (fun r => { r with startDate := sd }) (fun _ h => h) (fun _ => rfl)
            db1a.userConfig).trans fU⟩
      · refine (restrict_eq_iff A _ _).mpr ⟨hE1, hR1, hC1, ?_⟩
        rw [map_guard_comm ConfigRow.userId A (fun r => r.userId == A)
            (fun r => { r with startDate := sd }) (fun _ => rfl),
          map_guard_comm ConfigRow.userId A (fun r => r.userId == A)
            (fun r => { r with startDate := sd }) (fun _ => rfl), hU1]
    · have hb2 : ¬(db2a.userConfig.any (fun r => r.userId == A) = true) := by
        rw [← hany]; exact hb
      rw [if_neg hb, if_neg hb2]
      refine ⟨?_, rfl, ?_⟩
      · exact (restrict_eq_iff B _ db1).mpr ⟨fE, fR, fC,
          (append_one_frame ConfigRow.userId hBA _ _ rfl).trans fU⟩
      · refine (restrict_eq_iff A _ _).mpr ⟨hE1, hR1, hC1, ?_⟩
        rw [append_one_all ConfigRow.userId A _ _ rfl,
          append_one_all ConfigRow.userId A _ _ rfl, hU1]

theorem upsertCategory_frame {A B : String} (hBA : B ≠ A) (rows : List CatRow)
    (n : String) (p : Int) :
    ((upsertCategory A rows n p).filter fun r => r.userId == B) =
      rows.filter fun r => r.userId == B := by
  unfold upsertCategory
  split_ifs with h
  · exact map_guard_frame CatRow.userId hBA (fun r => r.userId == A && r.name == n)
      (fun r => { r with position := p }) (and_scope CatRow.userId A _) (fun _ => rfl) rows
  · exact append_one_frame CatRow.userId hBA rows _ rfl

theorem upsertCategory_comm (A : String) (rows : List CatRow) (n : String) (p : Int) :
    ((upsertCategory A rows n p).filter fun r => r.userId == A) =
      upsertCategory A (rows.filter fun r => r.userId == A) n p := by
  unfold upsertCategory
  have hany : (rows.filter fun r => r.userId == A).any
      (fun r => r.userId == A && r.name == n) =
        rows.any (fun r => r.userId == A && r.name == n) :=
    any_filter_keep _ _ rows (and_scope CatRow.userId A _)
  rw [hany]
  by_cases h : rows.any (fun r => r.userId == A && r.name == n) = true
  · rw [if_pos h, if_pos h]
    exact map_guard_comm CatRow.userId A (fun r => r.userId == A && r.name == n)
      (fun r => { r with position := p }) (fun _ => rfl) rows
  · rw [if_neg h, if_neg h]
    exact append_one_all CatRow.userId A rows _ rfl

theorem upsertCategoriesB_frame {A B : String} (hBA : B ≠ A) :
    ∀ (l : List (Nat × String)) (rows : List CatRow),
      ((upsertCategories A rows l).filter fun r => r.userId == B) =
        rows.filter fun r => r.userId == B := by
  intro l
  induction l with
  | nil => intro rows; rfl
  | cons p rest ih =>
    intro rows
    obtain ⟨i, name⟩ := p
    rw [upsertCategories, ih, upsertCategory_frame hBA]

theorem upsertCategories_comm (A : String) :
    ∀ (l : List (Nat × String)) (rows : List CatRow),
      ((upsertCategories A rows l).filter fun r => r.userId == A) =
        upsertCategories A (rows.filter fun r => r.userId == A) l := by
  intro l
  induction l with
  | nil => intro rows; rfl
  | cons p rest ih =>
    intro rows
    obtain ⟨i, name⟩ := p
    rw [upsertCategories, upsertCategories, ih, upsertCategory_comm]

theorem deleteAbsent_frame {A B : String} (hBA : B ≠ A) (names : List String)
    (rows : List CatRow) :
    ((deleteAbsentCategories A names rows).filter fun r => r.userId == B) =
      rows.filter fun r => r.userId == B := by
  unfold deleteAbsentCategories
  exact filter_guard_frame CatRow.userId hBA _ rows

theorem deleteAbsent_comm (A : String) (names : List String) (rows : List CatRow) :
    ((deleteAbsentCategories A names rows).filter fun r => r.userId == A) =
      deleteAbsentCategories A names (rows.filter fun r => r.userId == A) := by
  unfold deleteAbsentCategories
  exact filter_swap _ _ rows

theorem updateCategoriesTable_isolated (cats : List String) :
    Isolated (fun A db => updateCategoriesTable A cats db) := by
  intro A B db1 db2 hBA hA
  obtain ⟨hE, hR, hC, hU⟩ := (restrict_eq_iff A db1 db2).mp hA
  simp only [updateCategoriesTable]
  split_ifs with h1 h2
  · exact ⟨rfl, rfl, hA⟩
  · exact ⟨rfl, rfl, hA⟩
  · refine ⟨?_, rfl, ?_⟩
    · refine (restrict_eq_iff B _ db1).mpr ⟨rfl, rfl, ?_, rfl⟩
      rw [deleteAbsent_frame hBA, upsertCategoriesB_frame hBA]
    · refine (restrict_eq_iff A _ _).mpr ⟨hE, hR, ?_, hU⟩
      rw [deleteAbsent_comm, deleteAbsent_comm, upsertCategories_comm,
        upsertCategories_comm, hC]

theorem seedCategories_frame {A B : String} (hBA : B ≠ A) (cats : List String)
    (db : DB) : restrict B (seedCategories A cats db) = restrict B db := by
  refine (restrict_eq_iff B _ db).mpr ⟨rfl, rfl, ?_, rfl⟩
  simp only [seedCategories]
  exact upsertCategoriesB_frame hBA _ _

theorem seedCategories_ni (A : String) (cats : List String) (db1 db2 : DB)
    (h : restrict A db1 = restrict A db2) :
    restrict A (seedCategories A cats db1) = restrict A (seedCategories A cats db2) := by
  obtain ⟨hE, hR, hC, hU⟩ := (restrict_eq_iff A db1 db2).mp h
  refine (restrict_eq_iff A _ _).mpr ⟨hE, hR, ?_, hU⟩
  simp only [seedCategories]
  rw [upsertCategories_comm, upsertCategories_comm, hC]

theorem GetCategories_eq (A : String) (db : DB) :
    GetCategories A db =
      if getCategoriesFromTable A db = [] then
        (defaultCategories, seedCategories A defaultCategories db)
      else (getCategoriesFromTable A db, db) := rfl

theorem GetCategories_isolated : Isolated (fun A db => GetCategories A db) := by
  intro A B db1 db2 hBA hA
  obtain ⟨hE, hR, hC, hU⟩ := (restrict_eq_iff A db1 db2).mp hA
  have hcats : getCategoriesFromTable A db1 = getCategoriesFromTable A db2 := by
    unfold getCategoriesFromTable
    rw [hC]
  simp only [GetCategories_eq]
  by_cases hnil : getCategoriesFromTable A db1 = []
  · have hnil2 : getCategoriesFromTable A db2 = [] := by rw [← hcats]; exact hnil
    rw [if_pos hnil, if_pos hnil2]
    exact ⟨seedCategories_frame hBA _ db1, rfl, seedCategories_ni A _ db1 db2 hA⟩
  · have hnil2 : ¬(getCategoriesFromTable A db2 = []) := by rw [← hcats]; exact hnil
    rw [if_neg hnil, if_neg hnil2]
    exact ⟨rfl, hcats, hA⟩

theorem ne_self_prepend (A : String) : ("x" ++ A : String) ≠ A := by
  intro h
  have h2 := congrArg String.length h
  rw [String.length_append] at h2
  have h1 : ("x" : String).length = 1 := rfl
  omega

theorem map_guard_ni {α : Type} (tid : α → String) (A : String)
    (q : α → Bool) (f : α → α) (hf : ∀ r, tid (f r) = tid r) (l1 l2 : List α)
    (hl : l1.filter (fun r => tid r == A) = l2.filter (fun r => tid r == A)) :
    ((l1.map fun r => if q r then f r else r).filter fun r => tid r == A) =
      (l2.map fun r => if q r then f r else r).filter fun r => tid r == A := by
  rw [map_guard_comm tid A q f hf, map_guard_comm tid A q f hf, hl]

theorem filter_guard_ni {α : Type} (tid : α → String) (A : String)
    (p : α → Bool) (l1 l2 : List α)
    (hl : l1.filter (fun r => tid r == A) = l2.filter (fun r => tid r == A)) :
    ((l1.filter fun r => !(tid r == A && p r)).filter fun r => tid r == A) =
      (l2.filter fun r => !(tid r == A && p r)).filter fun r => tid r == A := by
  refine (filter_swap _ _ l1).trans ?_
  rw [hl]
  exact (filter_swap _ _ l2).symm

theorem getOrCreateUserConfig_ni (A : String) (db1 db2 : DB)
    (h : restrict A db1 = restrict A db2) :
    (getOrCreateUserConfig A db1).1 = (getOrCreateUserConfig A db2).1 ∧
      restrict A (getOrCreateUserConfig A db1).2 =
        restrict A (getOrCreateUserConfig A db2).2 := by
  have hh := getOrCreateUserConfig_isolated A ("x" ++ A) db1 db2 (ne_self_prepend A) h
  exact ⟨hh.2.1, hh.2.2⟩

theorem getOrCreateUserConfig_frame {A B : String} (hBA : B ≠ A) (db : DB) :
    restrict B (getOrCreateUserConfig A db).2 = restrict B db :=
  (getOrCreateUserConfig_isolated A B db db hBA rfl).1

theorem GetCurrency_ni (A : String) (db1 db2 : DB)
    (h : restrict A db1 = restrict A db2) :
    (GetCurrency A db1).1 = (GetCurrency A db2).1 ∧
      restrict A (GetCurrency A db1).2 = restrict A (GetCurrency A db2).2 := by
  have hh := GetCurrency_isolated A ("x" ++ A) db1 db2 (ne_self_prepend A) h
  exact ⟨hh.2.1, hh.2.2⟩

theorem GetCurrency_frame {A B : String} (hBA : B ≠ A) (db : DB) :
    restrict B (GetCurrency A db).2 = restrict B db :=
  (GetCurrency_isolated A B db db hBA rfl).1

theorem GetAllExpenses_ni (A : String) (db1 db2 : DB)
    (h : restrict A db1 = restrict A db2) :
    GetAllExpenses A db1 = GetAllExpenses A db2 := by
  unfold GetAllExpenses
  rw [((restrict_eq_iff A db1 db2).mp h).1]

theorem GetExpense_ni (A id : String) (db1 db2 : DB)
    (h : restrict A db1 = restrict A db2) :
    GetExpense A id db1 = GetExpense A id db2 := by
  unfold GetExpense
  rw [find?_scoped Expense.userId A (fun e => e.id == id) _ _
    ((restrict_eq_iff A db1 db2).mp h).1]

theorem AddExpense_eq (A : String) (e : Expense) (today : GoTime) (seed : Nat)
    (db : DB) :
    AddExpense A e today seed db =
      (fun e1 => (fun cdb =>
        (fun e3 => { cdb.2 with expenses := cdb.2.expenses ++ [storeExpense A e3] })
          (if cdb.1.date = goZeroTime then { cdb.1 with date := today } else cdb.1))
        (if e1.currency = "" then
          ({ e1 with currency := (GetCurrency A db).1 }, (GetCurrency A db).2)
        else (e1, db)))
        (if e.id = "" then { e with id := genId seed } else e) := rfl

theorem AddExpense_frame {A B : String} (hBA : B ≠ A) (e : Expense) (today : GoTime)
    (seed : Nat) (db : DB) :
    restrict B (AddExpense A e today seed db) = restrict B db := by
  have hgc := GetCurrency_frame hBA db
  simp only [AddExpense_eq]
  rcases hg : GetCurrency A db with ⟨c1, dba⟩
  rw [hg] at hgc
  simp only at hgc ⊢
  by_cases hc : (if e.id = "" then { e with id := genId seed } else e).currency = ""
  · rw [if_pos hc]
    refine Eq.trans ?_ hgc
    exact (restrict_eq_iff B _ dba).mpr
      ⟨append_one_frame Expense.userId hBA _ _ rfl, rfl, rfl, rfl⟩
  · rw [if_neg hc]
    exact (restrict_eq_iff B _ db).mpr
      ⟨append_one_frame Expense.userId hBA _ _ rfl, rfl, rfl, rfl⟩

theorem AddExpense_ni (A : String) (e : Expense) (today : GoTime) (seed : Nat)
    (db1 db2 : DB) (hA : restrict A db1 = restrict A db2) :
    restrict A (AddExpense A e today seed db1) =
      restrict A (AddExpense A e today seed db2) := by
  obtain ⟨hE, hR, hC, hU⟩ := (restrict_eq_iff A db1 db2).mp hA
  obtain ⟨g2, g3⟩ := GetCurrency_ni A db1 db2 hA
  simp only [AddExpense_eq]
  rcases hg1 : GetCurrency A db1 with ⟨c1, db1a⟩
  rcases hg2 : GetCurrency A db2 with ⟨c2, db2a⟩
  rw [hg1] at g2 g3
  rw [hg2] at g2 g3
  simp only at g2 g3 ⊢
  subst g2
  obtain ⟨hE1, hR1, hC1, hU1⟩ := (restrict_eq_iff A db1a db2a).mp g3
  by_cases hc : (if e.id = "" then { e with id := genId seed } else e).currency = ""
  · rw [if_pos hc, if_pos hc]
    dsimp only
    refine (restrict_eq_iff A _ _).mpr ⟨?_, ?_, ?_, ?_⟩
    · rw [append_one_all Expense.userId A _ _ rfl, append_one_all Expense.userId A _ _ rfl,
        hE1]
    · exact hR1
    · exact hC1
    · exact hU1
  · rw [if_neg hc, if_neg hc]
    dsimp only
    refine (restrict_eq_iff A _ _).mpr ⟨?_, ?_, ?_, ?_⟩
    · rw [append_one_all Expense.userId A _ _ rfl, append_one_all Expense.userId A _ _ rfl,
        hE]
    · exact hR
    · exact hC
    · exact hU

theorem UpdateExpense_eq (A id : String) (e : Expense) (db : DB) :
    UpdateExpense A id e db =
      (fun cdb =>
        if cdb.2.expenses.countP (fun r => r.userId == A && r.id == id) = 0 then
          (.error (String.append (String.append "expense with ID " id) " not found"),
            cdb.2)
        else
          (.ok (), { cdb.2 with expenses := cdb.2.expenses.map fun r =>
            if r.userId == A && r.id == id then
              { r with name := cdb.1.name, category := cdb.1.category,
                       amount := cdb.1.amount, currency := cdb.1.currency,
                       date := cdb.1.date, tags := cdb.1.tags,
                       recurringId := cdb.1.recurringId, source := cdb.1.source,
                       card := cdb.1.card }
            else r }))
        (if e.currency = "" then
          ({ e with currency := (GetCurrency A db).1 }, (GetCurrency A db).2)
        else (e, db)) := rfl

theorem UpdateExpense_isolated (id : String) (e : Expense) :
    Isolated (fun A db => UpdateExpense A id e db) := by
  intro A B db1 db2 hBA hA
  obtain ⟨hE, hR, hC, hU⟩ := (restrict_eq_iff A db1 db2).mp hA
  obtain ⟨g2, g3⟩ := GetCurrency_ni A db1 db2 hA
  have gf := GetCurrency_frame hBA db1
  simp only [UpdateExpense_eq]
  by_cases hc : e.currency = ""
  · rw [if_pos hc, if_pos hc]
    rcases hg1 : GetCurrency A db1 with ⟨c1, db1a⟩
    rcases hg2 : GetCurrency A db2 with ⟨c2, db2a⟩
    rw [hg1] at g2 g3 gf
    rw [hg2] at g2 g3
    simp only at g2 g3 gf ⊢
    subst g2
    obtain ⟨hE1, hR1, hC1, hU1⟩ := (restrict_eq_iff A db1a db2a).mp g3
    obtain ⟨fE, fR, fC, fU⟩ := (restrict_eq_iff B db1a db1).mp gf
    have hcnt : db1a.expenses.countP (fun r => r.userId == A && r.id == id) =
        db2a.expenses.countP (fun r => r.userId == A && r.id == id) :=
      countP_scoped Expense.userId A _ _ _ hE1
    by_cases hz : db1a.expenses.countP (fun r => r.userId == A && r.id == id) = 0
    · have hz2 : db2a.expenses.countP (fun r => r.userId == A && r.id == id) = 0 := by
        rw [← hcnt]; exact hz
      rw [if_pos hz, if_pos hz2]
      exact ⟨gf, rfl, g3⟩
    · have hz2 : ¬(db2a.expenses.countP (fun r => r.userId == A && r.id == id) = 0) := by
        rw [← hcnt]; exact hz
      rw [if_neg hz, if_neg hz2]
      dsimp only
      refine ⟨?_, rfl, ?_⟩
      · refine (restrict_eq_iff B _ db1).mpr ⟨?_, fR, fC, fU⟩
        refine Eq.trans ?_ fE
        refine map_guard_frame Expense.userId hBA _ _ ?_ ?_ _
        · exact and_scope Expense.userId A _
        · intro r; rfl
      · refine (restrict_eq_iff A _ _).mpr ⟨?_, hR1, hC1, hU1⟩
        refine map_guard_ni Expense.userId A _ _ ?_ _ _ hE1
        intro r; rfl
  · rw [if_neg hc, if_neg hc]
    dsimp only
    have hcnt : db1.expenses.countP (fun r => r.userId == A && r.id == id) =
        db2.expenses.countP (fun r => r.userId == A && r.id == id) :=
      countP_scoped Expense.userId A _ _ _ hE
    by_cases hz : db1.expenses.countP (fun r => r.userId == A && r.id == id) = 0
    · have hz2 : db2.expenses.countP (fun r => r.userId == A && r.id == id) = 0 := by
        rw [← hcnt]; exact hz
      rw [if_pos hz, if_pos hz2]
      exact ⟨rfl, rfl, hA⟩
    · have hz2 : ¬(db2.expenses.countP (fun r => r.userId == A && r.id == id) = 0) := by
        rw [← hcnt]; exact hz
      rw [if_neg hz, if_neg hz2]
      dsimp only
      refine ⟨?_, rfl, ?_⟩
      · refine (restrict_eq_iff B _ db1).mpr ⟨?_, rfl, rfl, rfl⟩
        refine map_guard_frame Expense.userId hBA _ _ ?_ ?_ _
        · exact and_scope Expense.userId A _
        · intro r; rfl
      · refine (restrict_eq_iff A _ _).mpr ⟨?_, hR, hC, hU⟩
        refine map_guard_ni Expense.userId A _ _ ?_ _ _ hE
        intro r; rfl

theorem RemoveExpense_isolated (id : String) :
    Isolated (fun A db => RemoveExpense A id db) := by
  intro A B db1 db2 hBA hA
  obtain ⟨hE, hR, hC, hU⟩ := (restrict_eq_iff A db1 db2).mp hA
  have hcnt : db1.expenses.countP (fun r => r.userId == A && r.id == id) =
      db2.expenses.countP (fun r => r.userId == A && r.id == id) :=
    countP_scoped Expense.userId A _ _ _ hE
  simp only [RemoveExpense]
  by_cases hz : db1.expenses.countP (fun r => r.userId == A && r.id == id) = 0
  · have hz2 : db2.expenses.countP (fun r => r.userId == A && r.id == id) = 0 := by
      rw [← hcnt]; exact hz
    rw [if_pos hz, if_pos hz2]
    exact ⟨rfl, rfl, hA⟩
  · have hz2 : ¬(db2.expenses.countP (fun r => r.userId == A && r.id == id) = 0) := by
      rw [← hcnt]; exact hz
    rw [if_neg hz, if_neg hz2]
    refine ⟨?_, rfl, ?_⟩
    · refine (restrict_eq_iff B _ db1).mpr ⟨?_, rfl, rfl, rfl⟩
      exact filter_guard_frame Expense.userId hBA _ _
    · refine (restrict_eq_iff A _ _).mpr ⟨?_, hR, hC, hU⟩
      exact filter_guard_ni Expense.userId A _ _ _ hE

theorem AddMultipleExpenses_frame {A B : String} (hBA : B ≠ A) (today : GoTime) :
    ∀ (es : List Expense) (seed : Nat) (db : DB),
      restrict B (AddMultipleExpenses A es today seed db) = restrict B db := by
  intro es
  induction es with
  | nil => intro seed db; rfl
  | cons e rest ih =>
    intro seed db
    show restrict B (AddMultipleExpenses A rest today (seed + 1)
      (AddExpense A e today seed db)) = restrict B db
    exact (ih _ _).trans (AddExpense_frame hBA e today seed db)

theorem AddMultipleExpenses_ni (A : String) (today : GoTime) :
    ∀ (es : List Expense) (seed : Nat) (db1 db2 : DB),
      restrict A db1 = restrict A db2 →
      restrict A (AddMultipleExpenses A es today seed db1) =
        restrict A (AddMultipleExpenses A es today seed db2) := by
  intro es
  induction es with
  | nil => intro seed db1 db2 h; exact h
  | cons e rest ih =>
    intro seed db1 db2 h
    show restrict A (AddMultipleExpenses A rest today (seed + 1)
        (AddExpense A e today seed db1)) =
      restrict A (AddMultipleExpenses A rest today (seed + 1)
        (AddExpense A e today seed db2))
    exact ih _ _ _ (AddExpense_ni A e today seed db1 db2 h)

theorem RemoveMultipleExpenses_frame {A B : String} (hBA : B ≠ A) (ids : List String)
    (db : DB) : restrict B (RemoveMultipleExpenses A ids db) = restrict B db := by
  simp only [RemoveMultipleExpenses]
  by_cases hids : ids = []
  · rw [if_pos hids]
  · rw [if_neg hids]
    refine (restrict_eq_iff B _ db).mpr ⟨?_, rfl, rfl, rfl⟩
    exact filter_guard_frame Expense.userId hBA _ _

theorem RemoveMultipleExpenses_ni (A : String) (ids : List String) (db1 db2 : DB)
    (hA : restrict A db1 = restrict A db2) :
    restrict A (RemoveMultipleExpenses A ids db1) =
      restrict A (RemoveMultipleExpenses A ids db2) := by
  obtain ⟨hE, hR, hC, hU⟩ := (restrict_eq_iff A db1 db2).mp hA
  simp only [RemoveMultipleExpenses]
  by_cases hids : ids = []
  · rw [if_pos hids, if_pos hids]
    exact hA
  · rw [if_neg hids, if_neg hids]
    refine (restrict_eq_iff A _ _).mpr ⟨?_, hR, hC, hU⟩
    exact filter_guard_ni Expense.userId A _ _ _ hE

theorem GetRecurringExpenses_ni (A : String) (db1 db2 : DB)
    (h : restrict A db1 = restrict A db2) :
    GetRecurringExpenses A db1 = GetRecurringExpenses A db2 := by
  unfold GetRecurringExpenses
  rw [((restrict_eq_iff A db1 db2).mp h).2.1]

theorem GetRecurringExpense_ni (A id : String) (db1 db2 : DB)
    (h : restrict A db1 = restrict A db2) :
    GetRecurringExpense A id db1 = GetRecurringExpense A id db2 := by
  unfold GetRecurringExpense
  rw [find?_scoped RecurringExpense.userId A (fun r => r.id == id) _ _
    ((restrict_eq_iff A db1 db2).mp h).2.1]

theorem currencyDefault_eq (A : String) (re : RecurringExpense) (db : DB) :
    currencyDefault A re db =
      if re.currency = "" then
        ({ re with currency := (GetCurrency A db).1 }, (GetCurrency A db).2)
      else (re, db) := rfl

theorem currencyDefault_frame {A B : String} (hBA : B ≠ A) (re : RecurringExpense)
    (db : DB) : restrict B (currencyDefault A re db).2 = restrict B db := by
  rw [currencyDefault_eq]
  by_cases hc : re.currency = ""
  · rw [if_pos hc]
    exact GetCurrency_frame hBA db
  · rw [if_neg hc]

theorem currencyDefault_ni (A : String) (re : RecurringExpense) (db1 db2 : DB)
    (hA : restrict A db1 = restrict A db2) :
    (currencyDefault A re db1).1 = (currencyDefault A re db2).1 ∧
      restrict A (currencyDefault A re db1).2 = restrict A (currencyDefault A re db2).2 := by
  obtain ⟨g2, g3⟩ := GetCurrency_ni A db1 db2 hA
  rw [currencyDefault_eq, currencyDefault_eq]
  by_cases hc : re.currency = ""
  · rw [if_pos hc, if_pos hc]
    refine ⟨?_, g3⟩
    dsimp only
    rw [g2]
  · rw [if_neg hc, if_neg hc]
    exact ⟨rfl, hA⟩

theorem AddRecurringExpense_frame {A B : String} (hBA : B ≠ A)
    (re : RecurringExpense) (today : GoTime) (seed : Nat) (db : DB) :
    restrict B (AddRecurringExpense A re today seed db) = restrict B db := by
  have hf := currencyDefault_frame hBA
    (if re.id = "" then { re with id := genId seed } else re) db
  simp only [AddRecurringExpense, defaultedRule]
  rcases hg : currencyDefault A
      (if re.id = "" then { re with id := genId seed } else re) db with ⟨re1, dba⟩
  rw [hg] at hf
  simp only at hf ⊢
  refine Eq.trans ?_ hf
  refine (restrict_eq_iff B _ dba).mpr ⟨?_, ?_, rfl, rfl⟩
  · exact append_gen_frame hBA _ _ _ _ _
  · exact append_one_frame RecurringExpense.userId hBA _ _ rfl

theorem AddRecurringExpense_ni (A : String) (re : RecurringExpense) (today : GoTime)
    (seed : Nat) (db1 db2 : DB) (hA : restrict A db1 = restrict A db2) :
    restrict A (AddRecurringExpense A re today seed db1) =
      restrict A (AddRecurringExpense A re today seed db2) := by
  obtain ⟨g2, g3⟩ := currencyDefault_ni A
    (if re.id = "" then { re with id := genId seed } else re) db1 db2 hA
  simp only [AddRecurringExpense, defaultedRule]
  rcases hg1 : currencyDefault A
      (if re.id = "" then { re with id := genId seed } else re) db1 with ⟨re1, db1a⟩
  rcases hg2 : currencyDefault A
      (if re.id = "" then { re with id := genId seed } else re) db2 with ⟨re2, db2a⟩
  rw [hg1] at g2 g3
  rw [hg2] at g2 g3
  simp only at g2 g3 ⊢
  subst g2
  obtain ⟨hE1, hR1, hC1, hU1⟩ := (restrict_eq_iff A db1a db2a).mp g3
  refine (restrict_eq_iff A _ _).mpr ⟨?_, ?_, hC1, hU1⟩
  · rw [append_gen_all, append_gen_all, hE1]
  · rw [append_one_all RecurringExpense.userId A _ _ rfl,
      append_one_all RecurringExpense.userId A _ _ rfl, hR1]

theorem other_keeps2 {α : Type} (tid : α → String) {A B : String} (hBA : B ≠ A)
    (p q : α → Bool) :
    ∀ r, (tid r == B) = true → (!((tid r == A && p r) && q r)) = true := by
  intro r h
  rw [beq_iff_eq] at h
  have hfa : (tid r == A) = false := by
    rw [h]
    exact beq_eq_false_iff_ne.mpr hBA
  rw [hfa, Bool.false_and, Bool.false_and, Bool.not_false]

theorem filter_guard2_frame {α : Type} (tid : α → String) {A B : String} (hBA : B ≠ A)
    (p q : α → Bool) (l : List α) :
    ((l.filter fun r => !((tid r == A && p r) && q r)).filter fun r => tid r == B) =
      l.filter fun r => tid r == B :=
  filter_filter_keep _ _ l (other_keeps2 tid hBA p q)

theorem filter_any_ni {α : Type} (pA keep : α → Bool) (l1 l2 : List α)
    (hl : l1.filter pA = l2.filter pA) :
    (l1.filter keep).filter pA = (l2.filter keep).filter pA := by
  refine (filter_swap _ _ l1).trans ?_
  rw [hl]
  exact (filter_swap _ _ l2).symm

theorem UpdateRecurringExpense_isolated (id : String) (re : RecurringExpense)
    (updateAll : Bool) (today : GoTime) (seed : Nat) :
    Isolated (fun A db => UpdateRecurringExpense A id re updateAll today seed db) := by
  intro A B db1 db2 hBA hA
  have gf := currencyDefault_frame hBA { re with id := id } db1
  obtain ⟨g2, g3⟩ := currencyDefault_ni A { re with id := id } db1 db2 hA
  simp only [UpdateRecurringExpense]
  rcases hg1 : currencyDefault A { re with id := id } db1 with ⟨re1, db1a⟩
  rcases hg2 : currencyDefault A { re with id := id } db2 with ⟨re2, db2a⟩
  rw [hg1] at g2 g3 gf
  rw [hg2] at g2 g3
  simp only at g2 g3 gf ⊢
  subst g2
  obtain ⟨hE1, hR1, hC1, hU1⟩ := (restrict_eq_iff A db1a db2a).mp g3
  obtain ⟨fE, fR, fC, fU⟩ := (restrict_eq_iff B db1a db1).mp gf
  have hcnt : db1a.recurring.countP (fun r => r.userId == A && r.id == id) =
      db2a.recurring.countP (fun r => r.userId == A && r.id == id) :=
    countP_scoped RecurringExpense.userId A _ _ _ hR1
  by_cases hz : db1a.recurring.countP (fun r => r.userId == A && r.id == id) = 0
  · have hz2 : db2a.recurring.countP (fun r => r.userId == A && r.id == id) = 0 := by
      rw [← hcnt]; exact hz
    rw [if_pos hz, if_pos hz2]
    exact ⟨gf, rfl, g3⟩
  · have hz2 : ¬(db2a.recurring.countP (fun r => r.userId == A && r.id == id) = 0) := by
      rw [← hcnt]; exact hz
    rw [if_neg hz, if_neg hz2]
    dsimp only
    refine ⟨?_, rfl, ?_⟩
    · refine (restrict_eq_iff B _ db1).mpr ⟨?_, ?_, fC, fU⟩
      · refine Eq.trans (append_gen_frame hBA _ _ _ _ _) ?_
        refine Eq.trans ?_ fE
        exact filter_guard2_frame Expense.userId hBA _ _ _
      · refine Eq.trans ?_ fR
        refine map_guard_frame RecurringExpense.userId hBA _ _ ?_ ?_ _
        · exact and_scope RecurringExpense.userId A _
        · intro r; rfl
    · refine (restrict_eq_iff A _ _).mpr ⟨?_, ?_, hC1, hU1⟩
      · rw [append_gen_all, append_gen_all]
        rw [filter_any_ni _ _ _ _ hE1]
      · refine map_guard_ni RecurringExpense.userId A _ _ ?_ _ _ hR1
        intro r; rfl

theorem RemoveRecurringExpense_isolated (id : String) (removeAll : Bool)
    (today : GoTime) :
    Isolated (fun A db => RemoveRecurringExpense A id removeAll today db) := by
  intro A B db1 db2 hBA hA
  obtain ⟨hE, hR, hC, hU⟩ := (restrict_eq_iff A db1 db2).mp hA
  have hcnt : db1.recurring.countP (fun r => r.userId == A && r.id == id) =
      db2.recurring.countP (fun r => r.userId == A && r.id == id) :=
    countP_scoped RecurringExpense.userId A _ _ _ hR
  simp only [RemoveRecurringExpense]
  by_cases hz : db1.recurring.countP (fun r => r.userId == A && r.id == id) = 0
  · have hz2 : db2.recurring.countP (fun r => r.userId == A && r.id == id) = 0 := by
      rw [← hcnt]; exact hz
    rw [if_pos hz, if_pos hz2]
    exact ⟨rfl, rfl, hA⟩
  · have hz2 : ¬(db2.recurring.countP (fun r => r.userId == A && r.id == id) = 0) := by
      rw [← hcnt]; exact hz
    rw [if_neg hz, if_neg hz2]
    dsimp only
    refine ⟨?_, rfl, ?_⟩
    · refine (restrict_eq_iff B _ db1).mpr ⟨?_, ?_, rfl, rfl⟩
      · exact filter_guard2_frame Expense.userId hBA _ _ _
      · exact filter_guard_frame RecurringExpense.userId hBA _ _
    · refine (restrict_eq_iff A _ _).mpr ⟨?_, ?_, hC, hU⟩
      · exact filter_any_ni _ _ _ _ hE
      · exact filter_guard_ni RecurringExpense.userId A _ _ _ hR

theorem GetConfig_eq (A : String) (db : DB) :
    GetConfig A db =
      (⟨(GetCategories A (getOrCreateUserConfig A db).2).1,
        (getOrCreateUserConfig A db).1.1, (getOrCreateUserConfig A db).1.2,
        GetRecurringExpenses A (GetCategories A (getOrCreateUserConfig A db).2).2⟩,
       (GetCategories A (getOrCreateUserConfig A db).2).2) := rfl

theorem GetConfig_isolated : Isolated (fun A db => GetConfig A db) := by
  intro A B db1 db2 hBA hA
  obtain ⟨f1, n1, s1⟩ := getOrCreateUserConfig_isolated A B db1 db2 hBA hA
  obtain ⟨f2, n2, s2⟩ := GetCategories_isolated A B (getOrCreateUserConfig A db1).2
    (getOrCreateUserConfig A db2).2 hBA s1
  simp only at f1 n1 s1 f2 n2 s2
  have hrec := GetRecurringExpenses_ni A
    (GetCategories A (getOrCreateUserConfig A db1).2).2
    (GetCategories A (getOrCreateUserConfig A db2).2).2 s2
  simp only [GetConfig_eq]
  refine ⟨f2.trans f1, ?_, s2⟩
  rw [n1, n2, hrec]

/-- C2: for distinct tenants A and B, every exposed operation called for
tenant A leaves every row stored under tenant B unchanged (frame), and —
stated as a two-run noninterference property — both the operation's
visible result and tenant A's rows afterwards are independent of tenant
B's rows: running the same operation on two databases that agree on A's
rows yields the same result and the same A-rows, even when row ids under
A and B are equal. -/
theorem C2_tenant_isolation (op : Op) (A B : String) (today : GoTime) (seed : Nat)
    (db1 db2 : DB) (hBA : B ≠ A) (hA : restrict A db1 = restrict A db2) :
    restrict B (runOp op A today seed db1).2 = restrict B db1 ∧
    (runOp op A today seed db1).1 = (runOp op A today seed db2).1 ∧
    restrict A (runOp op A today seed db1).2 = restrict A (runOp op A today seed db2).2 := by
  cases op with
  | getConfig =>
    obtain ⟨f, n, s⟩ := GetConfig_isolated A B db1 db2 hBA hA
    exact ⟨f, congrArg OpResult.config n, s⟩
  | getCategories =>
    obtain ⟨f, n, s⟩ := GetCategories_isolated A B db1 db2 hBA hA
    exact ⟨f, congrArg OpResult.names n, s⟩
  | updateCategories cats =>
    obtain ⟨f, n, s⟩ := updateCategoriesTable_isolated cats A B db1 db2 hBA hA
    exact ⟨f, congrArg unitResult n, s⟩
  | getCurrency =>
    obtain ⟨f, n, s⟩ := GetCurrency_isolated A B db1 db2 hBA hA
    exact ⟨f, congrArg OpResult.str n, s⟩
  | updateCurrency c =>
    obtain ⟨f, n, s⟩ := UpdateCurrency_isolated c A B db1 db2 hBA hA
    exact ⟨f, congrArg unitResult n, s⟩
  | getStartDate =>
    obtain ⟨f, n, s⟩ := GetStartDate_isolated A B db1 db2 hBA hA
    exact ⟨f, congrArg OpResult.int n, s⟩
  | updateStartDate sd =>
    obtain ⟨f, n, s⟩ := UpdateStartDate_isolated sd A B db1 db2 hBA hA
    exact ⟨f, congrArg unitResult n, s⟩
  | getRecurringExpenses =>
    exact ⟨rfl, congrArg OpResult.recurrings (GetRecurringExpenses_ni A db1 db2 hA), hA⟩
  | getRecurringExpense id =>
    have h := GetRecurringExpense_ni A id db1 db2 hA
    simp only [runOp]
    rw [h]
    cases hx : GetRecurringExpense A id db2 <;> exact ⟨rfl, rfl, hA⟩
  | addRecurringExpense re =>
    exact ⟨AddRecurringExpense_frame hBA re today seed db1, rfl,
      AddRecurringExpense_ni A re today seed db1 db2 hA⟩
  | removeRecurringExpense id removeAll =>
    obtain ⟨f, n, s⟩ := RemoveRecurringExpense_isolated id removeAll today A B db1 db2 hBA hA
    exact ⟨f, congrArg unitResult n, s⟩
  | updateRecurringExpense id re updateAll =>
    obtain ⟨f, n, s⟩ :=
      UpdateRecurringExpense_isolated id re updateAll today seed A B db1 db2 hBA hA
    exact ⟨f, congrArg unitResult n, s⟩
  | getAllExpenses =>
    exact ⟨rfl, congrArg OpResult.expenses (GetAllExpenses_ni A db1 db2 hA), hA⟩
  | getExpense id =>
    have h := GetExpense_ni A id db1 db2 hA
    simp only [runOp]
    rw [h]
    cases hx : GetExpense A id db2 <;> exact ⟨rfl, rfl, hA⟩
  | addExpense e =>
    exact ⟨AddExpense_frame hBA e today seed db1, rfl,
      AddExpense_ni A e today seed db1 db2 hA⟩
  | removeExpense id =>
    obtain ⟨f, n, s⟩ := RemoveExpense_isolated id A B db1 db2 hBA hA
    exact ⟨f, congrArg unitResult n, s⟩
  | addMultipleExpenses es =>
    exact ⟨AddMultipleExpenses_frame hBA today es seed db1, rfl,
      AddMultipleExpenses_ni A today es seed db1 db2 hA⟩
  | removeMultipleExpenses ids =>
    exact ⟨RemoveMultipleExpenses_frame hBA ids db1, rfl,
      RemoveMultipleExpenses_ni A ids db1 db2 hA⟩
  | updateExpense id e =>
    obtain ⟨f, n, s⟩ := UpdateExpense_isolated id e A B db1 db2 hBA hA
    exact ⟨f, congrArg unitResult n, s⟩

/-- Witness for C2: deleting expense `e1` as tenant `T` on a database
that also stores a tenant-`U` row with the same id `e1` leaves `U`'s
rows untouched, and result and `T`-rows match the run on the database
without the `U` row. -/
theorem C2_tenant_isolation_witness :
    (("U" : String) ≠ "T" ∧ restrict "T" wDBU = restrict "T" wDB2) ∧
    (restrict "U" (runOp (.removeExpense "e1") "T" wToday 5 wDBU).2 =
        restrict "U" wDBU ∧
      (runOp (.removeExpense "e1") "T" wToday 5 wDBU).1 =
        (runOp (.removeExpense "e1") "T" wToday 5 wDB2).1 ∧
      restrict "T" (runOp (.removeExpense "e1") "T" wToday 5 wDBU).2 =
        restrict "T" (runOp (.removeExpense "e1") "T" wToday 5 wDB2).2) :=
  ⟨⟨by decide, by decide⟩,
   C2_tenant_isolation (.removeExpense "e1") "T" "U" wToday 5 wDBU wDB2
     (by decide) (by decide)⟩
